import Mathlib

/-!
Verification of the schedule-system repository (excel_handler.py, app.py).

This file shallowly embeds the reconciliation / write-back core:
SKU normalization (`_item_code`, `_sku_spec`), the SKU row search
(`_search_sku_in_file`), the diff engine (`smart_diff`), the order
assembly of the batch upload endpoint, the per-file mutation sequence of
`batch_process` (as an event trace), the undo subsystem
(`undo_selected`) and the ship-date insertion search (`_insert_pos_com`).
Python strings are modelled as Lean `String` / `List Char`; Python dicts
keyed by column letters as association lists; spreadsheet cell values as
an explicit `CellVal` sum; the file system seen by the SKU locator as an
oracle function.  All definitions are translated from the source files.
-/

/-! ### Python string primitives

`_item_code` and `_sku_spec` (excel_handler.py:115-134) work on Python
strings after `re.sub(r'[\s\n]+','',...)` and `.upper()`.  We model the
character classes used by the regexes (`\d`, `[A-Za-z]`, `\s`) and ASCII
`str.upper` on `List Char`. -/

def pyWs (c : Char) : Bool :=
  c.toNat = 32 || c.toNat = 9 || c.toNat = 10 || c.toNat = 13 ||
  c.toNat = 11 || c.toNat = 12

def isDig (c : Char) : Bool := 48 ≤ c.toNat && c.toNat ≤ 57

def isLow (c : Char) : Bool := 97 ≤ c.toNat && c.toNat ≤ 122

def isUpp (c : Char) : Bool := 65 ≤ c.toNat && c.toNat ≤ 90

def isAl (c : Char) : Bool := isUpp c || isLow c

/-- `c != '-'`, the predicate behind Python's `s.split('-')[0]` prefix. -/
def notDash (c : Char) : Bool := c != '-'

/-- ASCII upper-casing, as Python's `str.upper` acts on the ASCII SKU
codes handled by the system. -/
def upC (c : Char) : Char :=
  if isLow c then Char.ofNat (c.toNat - 32) else c

/-- `re.sub(r'[\s\n]+', '', s)`: drop every whitespace character. -/
def stripWs (l : List Char) : List Char := l.filter (fun c => !(pyWs c))

/-- Python `str.strip()`: drop leading and trailing whitespace. -/
def pyStripL (l : List Char) : List Char :=
  ((l.dropWhile pyWs).reverse.dropWhile pyWs).reverse

/-- `_item_code` (excel_handler.py:115-123): take the part of the string
before the first `-`, match `^(\d+[A-Za-z]*\d*)` on it and upper-case the
match; empty input or no match gives `''`. -/
def itemCodeL (l : List Char) : List Char :=
  if l = [] then []
  else
    let s := stripWs l
    let base := s.takeWhile notDash
    let d1 := base.takeWhile isDig
    if d1 = [] then []
    else
      let r1 := base.dropWhile isDig
      let al := r1.takeWhile isAl
      let d2 := (r1.dropWhile isAl).takeWhile isDig
      (d1 ++ al ++ d2).map upC

/-- The optional `(?:-S\d+)?` suffix of `_sku_spec`'s regex: a literal
`-`, `S`/`s` (`re.IGNORECASE`), then at least one digit. -/
def sfxOf (r : List Char) : List Char :=
  match r with
  | c0 :: c :: rest =>
      if c0 = '-' ∧ (c = 'S' ∨ c = 's') then
        let ds := rest.takeWhile isDig
        if ds = [] then [] else c0 :: c :: ds
      else []
  | _ => []

/-- `_sku_spec` (excel_handler.py:126-134): strip whitespace, upper-case,
match `^(\d+[A-Za-z]*\d*(?:-S\d+)?)` and upper-case the match; if the
regex does not match, fall back to `_item_code` of the working string. -/
def skuSpecL (l : List Char) : List Char :=
  if l = [] then []
  else
    let s := (stripWs l).map upC
    let d1 := s.takeWhile isDig
    if d1 = [] then itemCodeL s
    else
      let r1 := s.dropWhile isDig
      let al := r1.takeWhile isAl
      let r2 := r1.dropWhile isAl
      let d2 := r2.takeWhile isDig
      let r3 := r2.dropWhile isDig
      (d1 ++ al ++ d2 ++ sfxOf r3).map upC

def item_code (s : String) : String := ⟨itemCodeL s.data⟩

def sku_spec (s : String) : String := ⟨skuSpecL s.data⟩

example : item_code "125160H-S001" = "125160H" := by decide
example : sku_spec "125160H-S001" = "125160H-S001" := by decide
example : item_code "" = "" := by decide
example : sku_spec "92105-S001" = "92105-S001" := by decide
example : item_code "15760UQ1" = "15760UQ1" := by decide
example : item_code "9298-2025-S001-NB" = "9298" := by decide

/-! ### Character-class lemmas for the normalization proofs -/

theorem toNat_ofNat_small (n : Nat) (h : n < 55296) : (Char.ofNat n).toNat = n := by
  have hv : n.isValidChar := Or.inl h
  simp only [Char.ofNat, hv, dif_pos, Char.ofNatAux, Char.toNat]
  simp [UInt32.toNat, UInt32.ofNat', BitVec.toNat_ofNat]

theorem uc_dig (c : Char) (h : isDig c = true) : upC c = c := by
  simp only [isDig, Bool.and_eq_true, decide_eq_true_eq] at h
  simp only [upC, isLow]
  rw [if_neg]; simp; omega

theorem uc_upp (c : Char) (h : isUpp c = true) : upC c = c := by
  simp only [isUpp, Bool.and_eq_true, decide_eq_true_eq] at h
  simp only [upC, isLow]
  rw [if_neg]; simp; omega

theorem uc_low_upp (c : Char) (h : isLow c = true) : isUpp (upC c) = true := by
  have h' := h
  simp only [isLow, Bool.and_eq_true, decide_eq_true_eq] at h'
  simp only [upC, h, if_true]
  simp only [isUpp, Bool.and_eq_true, decide_eq_true_eq]
  rw [toNat_ofNat_small _ (by omega)]
  omega

theorem al_uc_upp (c : Char) (h : isAl c = true) : isUpp (upC c) = true := by
  simp only [isAl, Bool.or_eq_true] at h
  rcases h with h | h
  · rw [uc_upp c h]; exact h
  · exact uc_low_upp c h

theorem upp_al (c : Char) (h : isUpp c = true) : isAl c = true := by
  simp [isAl, h]

theorem dig_not_al (c : Char) (h : isDig c = true) : isAl c = false := by
  simp only [isDig, Bool.and_eq_true, decide_eq_true_eq] at h
  simp only [isAl, isUpp, isLow, Bool.or_eq_false_iff, Bool.and_eq_false_iff]
  refine ⟨?_, ?_⟩ <;> [left; left] <;> simp <;> omega

theorem upp_not_dig (c : Char) (h : isUpp c = true) : isDig c = false := by
  simp only [isUpp, Bool.and_eq_true, decide_eq_true_eq] at h
  simp only [isDig, Bool.and_eq_false_iff]
  right; simp; omega

theorem dig_not_ws (c : Char) (h : isDig c = true) : pyWs c = false := by
  simp only [isDig, Bool.and_eq_true, decide_eq_true_eq] at h
  simp only [pyWs]
  simp only [Bool.or_eq_false_iff, decide_eq_false_iff_not]
  omega

theorem upp_not_ws (c : Char) (h : isUpp c = true) : pyWs c = false := by
  simp only [isUpp, Bool.and_eq_true, decide_eq_true_eq] at h
  simp only [pyWs]
  simp only [Bool.or_eq_false_iff, decide_eq_false_iff_not]
  omega

theorem dig_notDash (c : Char) (h : isDig c = true) : notDash c = true := by
  simp only [isDig, Bool.and_eq_true, decide_eq_true_eq] at h
  simp only [notDash, bne_iff_ne, ne_eq]
  intro hc; subst hc; revert h; decide

theorem upp_notDash (c : Char) (h : isUpp c = true) : notDash c = true := by
  simp only [isUpp, Bool.and_eq_true, decide_eq_true_eq] at h
  simp only [notDash, bne_iff_ne, ne_eq]
  intro hc; subst hc; revert h; decide

/-! ### takeWhile / dropWhile splitting helpers -/

theorem tw_all {p : Char → Bool} {l : List Char} (h : ∀ a ∈ l, p a = true) :
    l.takeWhile p = l := by
  induction l with
  | nil => rfl
  | cons a m ih =>
      simp only [List.takeWhile_cons, h a (by simp)]
      simp [ih (fun x hx => h x (by simp [hx]))]

theorem dw_all {p : Char → Bool} {l : List Char} (h : ∀ a ∈ l, p a = true) :
    l.dropWhile p = [] := by
  induction l with
  | nil => rfl
  | cons a m ih =>
      simp only [List.dropWhile_cons, h a (by simp), if_true]
      exact ih (fun x hx => h x (by simp [hx]))

theorem tw_split {p : Char → Bool} {L G : List Char} (hL : ∀ a ∈ L, p a = true)
    (hG : ∀ a m, G = a :: m → p a = false) :
    (L ++ G).takeWhile p = L ∧ (L ++ G).dropWhile p = G := by
  induction L with
  | nil =>
      simp only [List.nil_append]
      cases G with
      | nil => simp
      | cons a m => simp [List.takeWhile_cons, List.dropWhile_cons, hG a m rfl]
  | cons a L ih =>
      have ha : p a = true := hL a (by simp)
      have ih' := ih (fun x hx => hL x (by simp [hx]))
      simp [List.takeWhile_cons, List.dropWhile_cons, ha, ih'.1, ih'.2]

theorem tw_dw_nil (p : Char → Bool) (l : List Char) :
    (l.dropWhile p).takeWhile p = [] := by
  induction l with
  | nil => rfl
  | cons a m ih =>
      by_cases h : p a = true
      · simp only [List.dropWhile_cons, h, if_true]; exact ih
      · simp [List.dropWhile_cons, List.takeWhile_cons, h]

theorem dw_of_tw_nil {p : Char → Bool} {l : List Char} (h : l.takeWhile p = []) :
    l.dropWhile p = l := by
  cases l with
  | nil => rfl
  | cons a m =>
      simp only [List.takeWhile_cons] at h
      by_cases hp : p a = true
      · simp [hp] at h
      · simp [List.dropWhile_cons, hp]

theorem filter_all {p : Char → Bool} {l : List Char} (h : ∀ a ∈ l, p a = true) :
    l.filter p = l := by
  induction l with
  | nil => rfl
  | cons a m ih =>
      simp only [List.filter_cons, h a (by simp), if_true]
      simp [ih (fun x hx => h x (by simp [hx]))]

theorem map_fix {f : Char → Char} {l : List Char} (h : ∀ a ∈ l, f a = a) :
    l.map f = l := by
  induction l with
  | nil => rfl
  | cons a m ih =>
      simp only [List.map_cons, h a (by simp)]
      simp [ih (fun x hx => h x (by simp [hx]))]

/-! ### Shape of `_item_code` / `_sku_spec` outputs -/

/-- Shape of a `_sku_spec` variant suffix: empty, or `-S` plus digits. -/
def SfxShape (S : List Char) : Prop :=
  S = [] ∨ ∃ ds, S = '-' :: 'S' :: ds ∧ ds ≠ [] ∧ ∀ c ∈ ds, isDig c = true

/-- Shape of an `_item_code` output: empty, or digits ++ upper letters ++
digits (with no letters forcing no trailing digit block). -/
def CodeShape (out : List Char) : Prop :=
  out = [] ∨ ∃ D A D2 : List Char, out = D ++ A ++ D2 ∧ D ≠ [] ∧
    (∀ c ∈ D, isDig c = true) ∧ (∀ c ∈ A, isUpp c = true) ∧
    (∀ c ∈ D2, isDig c = true) ∧ (A = [] → D2 = [])

/-- Shape of a `_sku_spec` output: a `CodeShape` followed by an optional
`-S` digit suffix. -/
def SpecShape (out : List Char) : Prop :=
  out = [] ∨ ∃ D A D2 S : List Char, out = D ++ A ++ D2 ++ S ∧ D ≠ [] ∧
    (∀ c ∈ D, isDig c = true) ∧ (∀ c ∈ A, isUpp c = true) ∧
    (∀ c ∈ D2, isDig c = true) ∧ (A = [] → D2 = []) ∧ SfxShape S

theorem codeShape_specShape (out : List Char) (h : CodeShape out) : SpecShape out := by
  rcases h with h | ⟨D, A, D2, hout, hDne, hD, hA, hD2, hAD⟩
  · exact Or.inl h
  · exact Or.inr ⟨D, A, D2, [], by simp [hout], hDne, hD, hA, hD2, hAD, Or.inl rfl⟩

theorem itemCodeL_shape (l : List Char) : CodeShape (itemCodeL l) := by
  unfold itemCodeL
  by_cases h0 : l = []
  · simp [h0, CodeShape]
  · rw [if_neg h0]
    by_cases hd : (((stripWs l).takeWhile notDash).takeWhile isDig) = []
    · simp [hd, CodeShape]
    · rw [if_neg hd]
      right
      set base := (stripWs l).takeWhile notDash with hbase
      set d1 := base.takeWhile isDig with hd1
      set r1 := base.dropWhile isDig with hr1
      set al := r1.takeWhile isAl with hal
      set d2 := (r1.dropWhile isAl).takeWhile isDig with hd2
      refine ⟨d1.map upC, al.map upC, d2.map upC, ?_, ?_, ?_, ?_, ?_, ?_⟩
      · simp [List.map_append]
      · simp only [ne_eq, List.map_eq_nil_iff]; exact hd
      · intro c hc
        rcases List.mem_map.mp hc with ⟨x, hx, rfl⟩
        have := List.mem_takeWhile_imp hx
        rw [uc_dig x this]; exact this
      · intro c hc
        rcases List.mem_map.mp hc with ⟨x, hx, rfl⟩
        exact al_uc_upp x (List.mem_takeWhile_imp hx)
      · intro c hc
        rcases List.mem_map.mp hc with ⟨x, hx, rfl⟩
        have := List.mem_takeWhile_imp hx
        rw [uc_dig x this]; exact this
      · intro hA
        have hal0 : al = [] := by simpa using hA
        have hdw : r1.dropWhile isAl = r1 := dw_of_tw_nil (by rw [← hal]; exact hal0)
        rw [List.map_eq_nil_iff, hd2, hdw, hr1]
        exact tw_dw_nil isDig base

theorem sfxOf_map_shape (r : List Char) : SfxShape ((sfxOf r).map upC) := by
  rcases r with _ | ⟨c0, _ | ⟨c, rest⟩⟩
  · exact Or.inl rfl
  · exact Or.inl rfl
  · show SfxShape ((if c0 = '-' ∧ (c = 'S' ∨ c = 's') then
        (if rest.takeWhile isDig = [] then [] else c0 :: c :: rest.takeWhile isDig)
      else []).map upC)
    by_cases h : c0 = '-' ∧ (c = 'S' ∨ c = 's')
    · rw [if_pos h]
      by_cases hds : rest.takeWhile isDig = []
      · rw [if_pos hds]; exact Or.inl rfl
      · rw [if_neg hds]
        obtain ⟨h0, hc⟩ := h
        subst h0
        right
        refine ⟨(rest.takeWhile isDig).map upC, ?_, by simpa using hds, ?_⟩
        · rcases hc with hc | hc <;> subst hc <;>
            simp [List.map_cons, show upC '-' = '-' by decide,
              show upC 'S' = 'S' by decide, show upC 's' = 'S' by decide]
        · intro x hx
          rcases List.mem_map.mp hx with ⟨y, hy, rfl⟩
          have := List.mem_takeWhile_imp hy
          rw [uc_dig y this]; exact this
    · rw [if_neg h]; exact Or.inl rfl

theorem skuSpecL_shape (l : List Char) : SpecShape (skuSpecL l) := by
  unfold skuSpecL
  by_cases h0 : l = []
  · simp [h0, SpecShape]
  · rw [if_neg h0]
    by_cases hd : (((stripWs l).map upC).takeWhile isDig) = []
    · rw [if_pos hd]
      exact codeShape_specShape _ (itemCodeL_shape _)
    · rw [if_neg hd]
      right
      set s := (stripWs l).map upC with hs
      set d1 := s.takeWhile isDig with hd1
      set r1 := s.dropWhile isDig with hr1
      set al := r1.takeWhile isAl with hal
      set r2 := r1.dropWhile isAl with hr2
      set d2 := r2.takeWhile isDig with hd2
      set r3 := r2.dropWhile isDig with hr3
      refine ⟨d1.map upC, al.map upC, d2.map upC, (sfxOf r3).map upC,
        ?_, ?_, ?_, ?_, ?_, ?_, sfxOf_map_shape r3⟩
      · simp [List.map_append]
      · simp only [ne_eq, List.map_eq_nil_iff]; exact hd
      · intro c hc
        rcases List.mem_map.mp hc with ⟨x, hx, rfl⟩
        have := List.mem_takeWhile_imp hx
        rw [uc_dig x this]; exact this
      · intro c hc
        rcases List.mem_map.mp hc with ⟨x, hx, rfl⟩
        exact al_uc_upp x (List.mem_takeWhile_imp hx)
      · intro c hc
        rcases List.mem_map.mp hc with ⟨x, hx, rfl⟩
        have := List.mem_takeWhile_imp hx
        rw [uc_dig x this]; exact this
      · intro hA
        have hal0 : al = [] := by simpa using hA
        have hdw : r1.dropWhile isAl = r1 := dw_of_tw_nil (by rw [← hal]; exact hal0)
        rw [List.map_eq_nil_iff, hd2, hr2, hdw, hr1]
        exact tw_dw_nil isDig s

theorem sfxOf_of_shape (S : List Char) (h : SfxShape S) : sfxOf S = S := by
  rcases h with h | ⟨ds, hSd, hne, hds⟩
  · rw [h]; rfl
  · rw [hSd]
    show (if ('-' : Char) = '-' ∧ (('S' : Char) = 'S' ∨ ('S' : Char) = 's') then
        (if ds.takeWhile isDig = [] then [] else '-' :: 'S' :: ds.takeWhile isDig)
      else []) = '-' :: 'S' :: ds
    rw [if_pos ⟨rfl, Or.inl rfl⟩, tw_all hds, if_neg hne]

/-- Decomposition of a shaped string by the `takeWhile`/`dropWhile` chain
that models the greedy regex `\d+[A-Za-z]*\d*(-S\d+)?`. -/
theorem shape_decomp (D A D2 S : List Char)
    (hD : ∀ c ∈ D, isDig c = true) (hA : ∀ c ∈ A, isUpp c = true)
    (hD2 : ∀ c ∈ D2, isDig c = true) (hAD : A = [] → D2 = [])
    (hS : SfxShape S) :
    (D ++ A ++ D2 ++ S).takeWhile isDig = D ∧
    (D ++ A ++ D2 ++ S).dropWhile isDig = A ++ D2 ++ S ∧
    (A ++ D2 ++ S).takeWhile isAl = A ∧
    (A ++ D2 ++ S).dropWhile isAl = D2 ++ S ∧
    (D2 ++ S).takeWhile isDig = D2 ∧
    (D2 ++ S).dropWhile isDig = S := by
  have hShead : ∀ a m, S = a :: m → isDig a = false ∧ isAl a = false := by
    intro a m hm
    rcases hS with h | ⟨ds, hSd, _, _⟩
    · rw [h] at hm; cases hm
    · rw [hSd] at hm
      injection hm with h1 _
      subst h1
      exact ⟨by decide, by decide⟩
  have hDShead : ∀ a m, D2 ++ S = a :: m → isAl a = false := by
    intro a m hm
    cases D2 with
    | nil => exact (hShead a m (by simpa using hm)).2
    | cons x xs =>
        simp only [List.cons_append] at hm
        injection hm with h1 _
        subst h1
        exact dig_not_al x (hD2 x (by simp))
  have hADShead : ∀ a m, A ++ (D2 ++ S) = a :: m → isDig a = false := by
    intro a m hm
    cases A with
    | nil =>
        rw [hAD rfl] at hm
        exact (hShead a m (by simpa using hm)).1
    | cons x xs =>
        simp only [List.cons_append] at hm
        injection hm with h1 _
        subst h1
        exact upp_not_dig x (hA x (by simp))
  have h3 := tw_split hD2 (fun a m hm => (hShead a m hm).1)
  have h2 := tw_split (fun c hc => upp_al c (hA c hc)) hDShead
  have h1 := tw_split hD hADShead
  refine ⟨?_, ?_, ?_, ?_, h3.1, h3.2⟩ <;> simp only [List.append_assoc]
  · exact h1.1
  · exact h1.2
  · exact h2.1
  · exact h2.2

theorem codeShape_fixed (out : List Char) (h : CodeShape out) :
    itemCodeL out = out := by
  rcases h with h | ⟨D, A, D2, hout, hDne, hD, hA, hD2, hAD⟩
  · rw [h]; rfl
  · have hdec := shape_decomp D A D2 [] hD hA hD2 hAD (Or.inl rfl)
    simp only [List.append_nil] at hdec
    obtain ⟨e1, e2, e3, e4, e5, _⟩ := hdec
    subst hout
    have hcls : ∀ c ∈ D ++ A ++ D2, isDig c = true ∨ isUpp c = true := by
      intro c hc
      rcases List.mem_append.mp hc with hc | hc
      · rcases List.mem_append.mp hc with hc | hc
        · exact Or.inl (hD c hc)
        · exact Or.inr (hA c hc)
      · exact Or.inl (hD2 c hc)
    have hne : D ++ A ++ D2 ≠ [] := by
      cases D with
      | nil => exact absurd rfl hDne
      | cons x xs => simp
    have hws : stripWs (D ++ A ++ D2) = D ++ A ++ D2 :=
      filter_all (fun c hc => by
        rcases hcls c hc with h | h
        · simp [dig_not_ws c h]
        · simp [upp_not_ws c h])
    have hdash : (D ++ A ++ D2).takeWhile notDash = D ++ A ++ D2 :=
      tw_all (fun c hc => by
        rcases hcls c hc with h | h
        · exact dig_notDash c h
        · exact upp_notDash c h)
    have hfix : ∀ c ∈ D ++ A ++ D2, upC c = c := fun c hc => by
      rcases hcls c hc with h | h
      · exact uc_dig c h
      · exact uc_upp c h
    unfold itemCodeL
    rw [if_neg hne]
    simp only [hws, hdash, e1, if_neg hDne, e2, e3, e4, e5]
    exact map_fix hfix

theorem specShape_fixed (out : List Char) (h : SpecShape out) :
    skuSpecL out = out := by
  rcases h with h | ⟨D, A, D2, S, hout, hDne, hD, hA, hD2, hAD, hS⟩
  · rw [h]; rfl
  · have hdec := shape_decomp D A D2 S hD hA hD2 hAD hS
    obtain ⟨e1, e2, e3, e4, e5, e6⟩ := hdec
    subst hout
    have hclsS : ∀ c ∈ S, isDig c = true ∨ isUpp c = true ∨ c = '-' := by
      intro c hc
      rcases hS with h | ⟨ds, hSd, _, hds⟩
      · rw [h] at hc; cases hc
      · rw [hSd] at hc
        rcases hc with _ | ⟨_, hc⟩
        · exact Or.inr (Or.inr rfl)
        · rcases hc with _ | ⟨_, hc⟩
          · exact Or.inr (Or.inl (by decide))
          · exact Or.inl (hds c hc)
    have hcls : ∀ c ∈ D ++ A ++ D2 ++ S,
        isDig c = true ∨ isUpp c = true ∨ c = '-' := by
      intro c hc
      rcases List.mem_append.mp hc with hc | hc
      · rcases List.mem_append.mp hc with hc | hc
        · rcases List.mem_append.mp hc with hc | hc
          · exact Or.inl (hD c hc)
          · exact Or.inr (Or.inl (hA c hc))
        · exact Or.inl (hD2 c hc)
      · exact hclsS c hc
    have hne : D ++ A ++ D2 ++ S ≠ [] := by
      cases D with
      | nil => exact absurd rfl hDne
      | cons x xs => simp
    have hws : stripWs (D ++ A ++ D2 ++ S) = D ++ A ++ D2 ++ S :=
      filter_all (fun c hc => by
        rcases hcls c hc with h | h | h
        · simp [dig_not_ws c h]
        · simp [upp_not_ws c h]
        · subst h; decide)
    have hfix : ∀ c ∈ D ++ A ++ D2 ++ S, upC c = c := fun c hc => by
      rcases hcls c hc with h | h | h
      · exact uc_dig c h
      · exact uc_upp c h
      · subst h; decide
    have hmap : (D ++ A ++ D2 ++ S).map upC = D ++ A ++ D2 ++ S := map_fix hfix
    unfold skuSpecL
    rw [if_neg hne]
    simp only [hws, hmap, e1, if_neg hDne, e2, e3, e4, e5, e6,
      sfxOf_of_shape S hS]

theorem itemCodeL_idem (l : List Char) : itemCodeL (itemCodeL l) = itemCodeL l :=
  codeShape_fixed _ (itemCodeL_shape l)

theorem skuSpecL_idem (l : List Char) : skuSpecL (skuSpecL l) = skuSpecL l :=
  specShape_fixed _ (skuSpecL_shape l)

/-- **C7**: the SKU normalization functions are pure (they are plain Lean
functions of their argument) and idempotent, and satisfy the spec's
examples: `item_code "125160H-S001" = "125160H"`,
`sku_spec "125160H-S001" = "125160H-S001"`, `item_code "" = ""`, and for
every string `s`, `item_code (item_code s) = item_code s` and
`sku_spec (sku_spec s) = sku_spec s`. -/
theorem c7_normalization_pure_idempotent :
    item_code "125160H-S001" = "125160H" ∧
    sku_spec "125160H-S001" = "125160H-S001" ∧
    item_code "" = "" ∧
    (∀ s : String, item_code (item_code s) = item_code s) ∧
    (∀ s : String, sku_spec (sku_spec s) = sku_spec s) := by
  refine ⟨by decide, by decide, by decide, ?_, ?_⟩
  · intro s
    exact congrArg String.mk (itemCodeL_idem s.data)
  · intro s
    exact congrArg String.mk (skuSpecL_idem s.data)

/-! ### Spreadsheet cell values and Python coercions

Existing-record data (`rec['data']` built by the PO batch search) maps
column letters to raw cell contents: strings, ints, floats or datetimes.
We model them as an explicit sum.  Exact CPython float-repr formatting is
approximated in `pyStr` (it is only used to build display strings and in
code paths our theorems do not inspect); int and string conversions are
exact. -/

inductive CellVal where
  | str (v : String)
  | intV (v : Int)
  | floatV (v : ℚ)
  | dateV (y mo d : Nat)
  | null
deriving DecidableEq

/-- Python truthiness of a cell value (`if not v: ...`). -/
def pyTruthy (v : CellVal) : Bool :=
  match v with
  | .str s => s ≠ ""
  | .intV n => n ≠ 0
  | .floatV q => q ≠ 0
  | .dateV _ _ _ => true
  | .null => false

def natDigits (n : Nat) : List Char := (Nat.repr n).data

/-- `f"{n:02d}"` for the small month/day numbers. -/
def pad2 (n : Nat) : List Char :=
  let ds := natDigits n
  if ds.length < 2 then '0' :: ds else ds

def pad4 (n : Nat) : List Char :=
  let ds := natDigits n
  List.replicate (4 - ds.length) '0' ++ ds

def intRepr (n : Int) : String :=
  if n < 0 then ⟨'-' :: natDigits n.natAbs⟩ else ⟨natDigits n.natAbs⟩

/-- Python `str(v)` on a cell value.  `str(datetime)` is
`YYYY-MM-DD HH:MM:SS`; floats are approximated (see section comment). -/
def pyStr (v : CellVal) : String :=
  match v with
  | .str s => s
  | .intV n => intRepr n
  | .floatV q =>
      if q.den = 1 then intRepr q.num ++ ".0"
      else intRepr q.num ++ "/" ++ intRepr (q.den : Int)
  | .dateV y mo d =>
      ⟨pad4 y ++ '-' :: pad2 mo ++ '-' :: pad2 d⟩ ++ " 00:00:00"
  | .null => "None"

def pyStrip (s : String) : String := ⟨pyStripL s.data⟩

/-- Numeric value of a digit run. -/
def digitsToNat (l : List Char) : Nat :=
  l.foldl (fun n c => n * 10 + (c.toNat - 48)) 0

/-- Python `float(str)` on the simple decimal literals that occur in
schedule cells: optional sign, digits, optional `.digits`; anything else
(including exponents, which never occur here) raises, i.e. `none`. -/
def parseFloatL (l : List Char) : Option ℚ :=
  let l := pyStripL l
  let (sgn, l) : (Bool × List Char) :=
    match l with
    | '-' :: t => (true, t)
    | '+' :: t => (false, t)
    | _ => (false, l)
  let ip := l.takeWhile isDig
  let rest := l.dropWhile isDig
  match rest with
  | [] =>
      if ip = [] then none
      else some ((if sgn then -1 else 1) * (digitsToNat ip : ℚ))
  | '.' :: fr =>
      let fp := fr.takeWhile isDig
      if fr.dropWhile isDig ≠ [] then none
      else if ip = [] ∧ fp = [] then none
      else
        some ((if sgn then -1 else 1) *
          ((digitsToNat ip : ℚ) + (digitsToNat fp : ℚ) / (10 : ℚ) ^ fp.length))
  | _ => none

/-- Python `float(v)` on a cell value (`int`/`float` pass through,
strings are parsed, anything else raises). -/
def pyFloat (v : CellVal) : Option ℚ :=
  match v with
  | .intV n => some (n : ℚ)
  | .floatV q => some q
  | .str s => parseFloatL s.data
  | _ => none

/-- Python `int(q)`: truncation toward zero. -/
def pyTrunc (q : ℚ) : Int :=
  if q < 0 then -((-q).floor) else q.floor

/-! ### `_normalize_date` (excel_handler.py:137-156) -/

def mapSlash (l : List Char) : List Char :=
  l.map (fun c => if c = '/' then '-' else c)

/-- Prefix match of `(\d{4})-(\d{1,2})-(\d{1,2})`; returns the raw year
digits and the numeric month/day groups. -/
def matchYMD (l : List Char) : Option (List Char × Nat × Nat) :=
  let r1 := l.takeWhile isDig
  let t1 := l.dropWhile isDig
  if r1.length = 4 then
    match t1 with
    | '-' :: t2 =>
        let r2 := t2.takeWhile isDig
        let t3 := t2.dropWhile isDig
        if r2.length = 1 ∨ r2.length = 2 then
          match t3 with
          | '-' :: t4 =>
              let r3 := t4.takeWhile isDig
              if r3 = [] then none
              else some (r1, digitsToNat r2, digitsToNat (r3.take 2))
          | _ => none
        else none
    | _ => none
  else none

/-- Prefix match of `(\d{1,2})-(\d{1,2})-(\d{4})`; returns the numeric
day/month groups and the raw year digits. -/
def matchDMY (l : List Char) : Option (Nat × Nat × List Char) :=
  let r1 := l.takeWhile isDig
  let t1 := l.dropWhile isDig
  if r1.length = 1 ∨ r1.length = 2 then
    match t1 with
    | '-' :: t2 =>
        let r2 := t2.takeWhile isDig
        let t3 := t2.dropWhile isDig
        if r2.length = 1 ∨ r2.length = 2 then
          match t3 with
          | '-' :: t4 =>
              let r3 := t4.takeWhile isDig
              if r3.length < 4 then none
              else some (digitsToNat r1, digitsToNat r2, r3.take 4)
          | _ => none
        else none
    | _ => none
  else none

/-- `_normalize_date`: normalize `YYYY-MM-DD` / `DD-MM-YYYY` /
`MM-DD-YYYY` (after `/` → `-`) to `YYYY-MM-DD`; anything else is
returned stripped with slashes replaced. -/
def normalizeDate (s : String) : String :=
  if s.data = [] then ""
  else
    let l := mapSlash (pyStripL s.data)
    match matchYMD l with
    | some (y, mo, d) => ⟨y ++ '-' :: pad2 mo ++ '-' :: pad2 d⟩
    | none =>
        match matchDMY l with
        | some (a, b, y) =>
            if a > 12 then ⟨y ++ '-' :: pad2 b ++ '-' :: pad2 a⟩
            else ⟨y ++ '-' :: pad2 a ++ '-' :: pad2 b⟩
        | none => ⟨l⟩

example : normalizeDate "2025/3/1" = "2025-03-01" := by decide
example : normalizeDate "01-06-2025" = "2025-01-06" := by decide
example : normalizeDate "25-06-2025" = "2025-06-25" := by decide

/-! ### Data model: order lines, schedule references, existing records

Mirrors the dicts passed around `smart_diff` (excel_handler.py:1085-1255)
and the batch upload endpoint (app.py:214-282).  A record's `data` maps
column letters to raw cell values. -/

structure Line where
  sku : String
  item_code : String
  sku_spec : String
  line_no : String
  qty : Int
  price : ℚ
  customer_po : String
  delivery : String
deriving DecidableEq

structure Sched where
  file : String
  fname : String
  sheet : String
  ref : Nat
  cnt : Nat
  mcol : Nat
deriving DecidableEq

structure Rec where
  file : String
  fname : String
  sheet : String
  row : Nat
  data : List (String × CellVal)
deriving DecidableEq

structure Order where
  po_number : String
  customer : String
  ship_date : String
  is_cancel : Bool
  lines : List Line
deriving DecidableEq

/-- `rd.get(col)`: `None` (here `null`) when the key is absent. -/
def rdGet (rd : List (String × CellVal)) (k : String) : CellVal :=
  match rd.find? (fun p => p.1 == k) with
  | some p => p.2
  | none => .null

/-- `str(rd.get(c, '') or '').strip()`. -/
def rdStrOr (rd : List (String × CellVal)) (c : String) : String :=
  let v := rdGet rd c
  if pyTruthy v then pyStrip (pyStr v) else ""

/-- Python substring test `a in b`. -/
def pyIn (a b : String) : Bool :=
  b.data.tails.any (fun t => a.data.isPrefixOf t)

def pyOrS (a b : String) : String := if a ≠ "" then a else b

/-! ### `smart_diff` (excel_handler.py:1085-1255)

The SKU Locator consulted for unmatched lines (`self.auto_find`) reads
the mapping table and the spreadsheet corpus from disk; we abstract that
external state as an oracle `f : String → Option Sched`. -/

/-- The tagged action variant of the diff engine (named `Action` in the
spec; `Act` here because Mathlib already declares an `Action`). -/
inductive Act where
  | new (line : Line) (schedule : Option Sched) (sku : String) (detail : String)
  | modify (record : Rec) (changes : List (String × CellVal)) (sku : String)
      (detail : String)
  | cancel (record : Rec) (sku : String) (detail : String)
deriving DecidableEq

def dictUpd (d : String → Option Line) (k : String) (v : Line) :
    String → Option Line :=
  fun x => if x = k then some v else d x

/-- Build `new_by_code`: `sku`-derived codes overwrite, `item_code`-derived
codes only fill gaps (lines 1100-1108). -/
def buildByCode (lines : List Line) : String → Option Line :=
  lines.foldl (fun d ln =>
    let code := item_code ln.sku
    let d1 := if code ≠ "" then dictUpd d code ln else d
    let icCode := item_code ln.item_code
    if icCode ≠ "" ∧ (d1 icCode).isNone then dictUpd d1 icCode ln else d1)
    (fun _ => none)

/-- Build `new_by_poline` keyed `"PO-lineNo"` (lines 1109-1111). -/
def buildByPoline (po : String) (lines : List Line) : String → Option Line :=
  lines.foldl (fun d ln =>
    if po ≠ "" ∧ ln.line_no ≠ "" then dictUpd d (po ++ "-" ++ ln.line_no) ln
    else d)
    (fun _ => none)

/-- The matching loop over columns `F G H D E I J` (lines 1122-1141):
first PO-line key match, then full item-code match; a matched column
stops the scan. -/
def matchFindGo (nbPoline nbCode : String → Option Line)
    (rd : List (String × CellVal)) :
    List String → Option (Line × String × Option String)
  | [] => none
  | col :: rest =>
      let v := rdGet rd col
      if pyTruthy v = false then matchFindGo nbPoline nbCode rd rest
      else
        let vs := pyStrip (pyStr v)
        if vs = "" then matchFindGo nbPoline nbCode rd rest
        else
          match nbPoline vs with
          | some ln => some (ln, item_code ln.sku, some vs)
          | none =>
              let code := item_code vs
              if code ≠ "" then
                match nbCode code with
                | some ln => some (ln, code, none)
                | none => matchFindGo nbPoline nbCode rd rest
              else matchFindGo nbPoline nbCode rd rest

def matchFind (nbPoline nbCode : String → Option Line)
    (rd : List (String × CellVal)) : Option (Line × String × Option String) :=
  matchFindGo nbPoline nbCode rd ["F", "G", "H", "D", "E", "I", "J"]

/-- Quantity comparison over columns `I J K L` (lines 1162-1173): first
parsable positive value decides; parse failure or non-positive value
moves on. -/
def qtyChangeGo (rd : List (String × CellVal)) (newQty : Int) :
    List String → List (String × CellVal)
  | [] => []
  | c :: rest =>
      let ov := rdGet rd c
      if ov = .null then qtyChangeGo rd newQty rest
      else
        match pyFloat ov with
        | none => qtyChangeGo rd newQty rest
        | some q =>
            if pyTrunc q > 0 then
              if pyTrunc q ≠ newQty then [(c, .intV newQty)] else []
            else qtyChangeGo rd newQty rest

def qtyChange (rd : List (String × CellVal)) (newQty : Int) :
    List (String × CellVal) :=
  if newQty = 0 then [] else qtyChangeGo rd newQty ["I", "J", "K", "L"]

/-- Unit-price comparison over columns `R`..`AF` (lines 1176-1187): the
first fractional value strictly between 0 and 100 decides, tolerance
0.001. -/
def priceChangeGo (rd : List (String × CellVal)) (newPrice : ℚ) :
    List String → List (String × CellVal)
  | [] => []
  | c :: rest =>
      let ov := rdGet rd c
      if ov = .null then priceChangeGo rd newPrice rest
      else
        match pyFloat ov with
        | none => priceChangeGo rd newPrice rest
        | some q =>
            if 0 < q ∧ q < 100 then
              if |q - newPrice| > 1 / 1000 then [(c, .floatV newPrice)] else []
            else priceChangeGo rd newPrice rest

def priceChange (rd : List (String × CellVal)) (newPrice : ℚ) :
    List (String × CellVal) :=
  if newPrice = 0 then []
  else priceChangeGo rd newPrice
    ["R", "S", "T", "U", "V", "W", "X", "Y", "Z", "AA", "AB", "AC", "AD", "AE", "AF"]

def dateYMDStr (y mo d : Nat) : String :=
  ⟨pad4 y ++ '-' :: pad2 mo ++ '-' :: pad2 d⟩

/-- Ship-date comparison over columns `M N O P` (lines 1190-1202): the
first date- or date-string-valued cell decides. -/
def shipChangeGo (rd : List (String × CellVal)) (newShip : String) :
    List String → List (String × CellVal)
  | [] => []
  | c :: rest =>
      let ov := rdGet rd c
      if ov = .null then shipChangeGo rd newShip rest
      else
        let oldStr :=
          match ov with
          | .dateV y mo d => dateYMDStr y mo d
          | .str s => if s ≠ "" then normalizeDate s else ""
          | _ => ""
        if oldStr = "" then shipChangeGo rd newShip rest
        else if oldStr ≠ newShip then [(c, .str newShip)] else []

def shipChange (rd : List (String × CellVal)) (newShip : String) :
    List (String × CellVal) :=
  if newShip = "" then [] else shipChangeGo rd newShip ["M", "N", "O", "P"]

/-- Full match of `^\d+\.\d+$` (pure decimal, lines 1206). -/
def isDecForm (s : String) : Bool :=
  let l := s.data
  let ip := l.takeWhile isDig
  let rest := l.dropWhile isDig
  ip ≠ [] &&
    match rest with
    | '.' :: fr => fr ≠ [] && fr.all isDig
    | _ => false

/-- Full match of `^\d{7,}-\d+$` (PO-line identifier, line 1222). -/
def isPoLineForm (s : String) : Bool :=
  let l := s.data
  let ip := l.takeWhile isDig
  let rest := l.dropWhile isDig
  ip.length ≥ 7 &&
    match rest with
    | '-' :: t => t ≠ [] && t.all isDig
    | _ => false

def cpoChangeGo (po : String) (rd : List (String × CellVal)) (newCpo : String) :
    List String → List (String × CellVal)
  | [] => []
  | c :: rest =>
      let ov := rdStrOr rd c
      if ov = "" then cpoChangeGo po rd newCpo rest
      else if isPoLineForm ov then cpoChangeGo po rd newCpo rest
      else if po ≠ "" ∧ pyIn po ov then cpoChangeGo po rd newCpo rest
      else if ov ≠ newCpo then [(c, .str newCpo)]
      else cpoChangeGo po rd newCpo rest

/-- Customer-PO comparison (lines 1204-1229): only when the PDF customer
PO is set and not a pure decimal; changed only when no column `D E F G`
already equals it; the written column is the first eligible one of
`E F`. -/
def cpoChange (po : String) (rd : List (String × CellVal)) (newCpo : String) :
    List (String × CellVal) :=
  if newCpo = "" ∨ isDecForm newCpo then []
  else if ["D", "E", "F", "G"].any (fun c => rdStrOr rd c == newCpo) then []
  else cpoChangeGo po rd newCpo ["E", "F"]

def joinSep (sep : String) (xs : List String) : String :=
  match xs with
  | [] => ""
  | x :: rest => rest.foldl (fun a b => a ++ sep ++ b) x

def fmtChange (p : String × CellVal) : String := p.1 ++ ":" ++ pyStr p.2

def modifyDetail (sku : String) (changes : List (String × CellVal)) : String :=
  "修改 " ++ sku ++ " " ++ joinSep ", " (changes.map fmtChange)

def newDetail (ln : Line) : String :=
  "新增 " ++ ln.sku ++ " " ++ intRepr ln.qty ++ "pcs"

structure DiffAcc where
  actions : List Act
  matchedCodes : List String
  matchedPolines : List String
deriving DecidableEq

/-- One iteration of `smart_diff`'s loop over existing records
(lines 1117-1239). -/
def diffStep (pdf : Order) (nbPoline nbCode : String → Option Line)
    (acc : DiffAcc) (rec : Rec) : DiffAcc :=
  let rd := rec.data
  match matchFind nbPoline nbCode rd with
  | none => acc
  | some (ln, mcode, poKey) =>
      let mc := if mcode ≠ "" then acc.matchedCodes ++ [mcode]
                else acc.matchedCodes
      let mp := match poKey with
                | some k => acc.matchedPolines ++ [k]
                | none => acc.matchedPolines
      let recPo := rdStrOr rd "D"
      let samePo := pdf.po_number ≠ "" ∧ recPo ≠ "" ∧
        (pyIn pdf.po_number recPo = true ∨ pyIn recPo pdf.po_number = true)
      if ¬ samePo then
        { acc with matchedCodes := mc, matchedPolines := mp }
      else
        let newShip := normalizeDate pdf.ship_date
        let changes := qtyChange rd ln.qty ++ priceChange rd ln.price ++
          shipChange rd newShip ++ cpoChange pdf.po_number rd ln.customer_po
        if changes ≠ [] then
          { actions := acc.actions ++
              [Act.modify rec changes ln.sku (modifyDetail ln.sku changes)],
            matchedCodes := mc, matchedPolines := mp }
        else
          { acc with matchedCodes := mc, matchedPolines := mp }

/-- One iteration of the trailing loop generating `new` actions for
unmatched PDF lines (lines 1242-1253); `f` is the `auto_find` oracle. -/
def newStep (f : String → Option Sched) (po : String) (mc mp : List String)
    (acts : List Act) (ln : Line) : List Act :=
  let code := item_code ln.sku
  let poLine := if po ≠ "" ∧ ln.line_no ≠ "" then po ++ "-" ++ ln.line_no
                else ""
  let already := (code ≠ "" ∧ code ∈ mc) ∨ (poLine ≠ "" ∧ poLine ∈ mp)
  if already then acts
  else acts ++ [Act.new ln
    (f (pyOrS ln.sku_spec (pyOrS ln.item_code ln.sku))) ln.sku
    (newDetail ln)]

def newActions (f : String → Option Sched) (po : String)
    (mc mp : List String) (lines : List Line) : List Act :=
  lines.foldl (newStep f po mc mp) []

/-- `smart_diff(pdf_data, existing_records)`, with the SKU Locator's view
of the file system abstracted as the oracle `f`. -/
def smart_diff (f : String → Option Sched) (pdf : Order)
    (existing : List Rec) : List Act :=
  let po := pdf.po_number
  let nbCode := buildByCode pdf.lines
  let nbPoline := buildByPoline po pdf.lines
  let st := existing.foldl (diffStep pdf nbPoline nbCode) ⟨[], [], []⟩
  st.actions ++ newActions f po st.matchedCodes st.matchedPolines pdf.lines

/-! ### C1: what the diff result depends on -/

/-- An action with the `schedule` component erased: the part of a diff
result that cannot depend on the file system. -/
inductive ActShape where
  | new (line : Line) (sku : String) (detail : String)
  | modify (record : Rec) (changes : List (String × CellVal)) (sku : String)
      (detail : String)
  | cancel (record : Rec) (sku : String) (detail : String)
deriving DecidableEq

def eraseSched : Act → ActShape
  | .new ln _ sku d => .new ln sku d
  | .modify r ch sku d => .modify r ch sku d
  | .cancel r sku d => .cancel r sku d

theorem newActions_foldl_erase (f1 f2 : String → Option Sched) (po : String)
    (mc mp : List String) (lines : List Line) :
    ∀ (acc1 acc2 : List Act), acc1.map eraseSched = acc2.map eraseSched →
      (lines.foldl (newStep f1 po mc mp) acc1).map eraseSched =
      (lines.foldl (newStep f2 po mc mp) acc2).map eraseSched := by
  induction lines with
  | nil => intro acc1 acc2 h; simpa using h
  | cons ln rest ih =>
      intro acc1 acc2 h
      simp only [List.foldl_cons]
      apply ih
      unfold newStep
      by_cases hA : (item_code ln.sku ≠ "" ∧ item_code ln.sku ∈ mc) ∨
          ((if po ≠ "" ∧ ln.line_no ≠ "" then po ++ "-" ++ ln.line_no else "") ≠ "" ∧
           (if po ≠ "" ∧ ln.line_no ≠ "" then po ++ "-" ++ ln.line_no else "") ∈ mp)
      · simp only [hA, if_true]; exact h
      · simp only [hA, if_false, List.map_append, h, List.map_cons,
          List.map_nil, eraseSched]

theorem newActions_erase (f1 f2 : String → Option Sched) (po : String)
    (mc mp : List String) (lines : List Line) :
    (newActions f1 po mc mp lines).map eraseSched =
    (newActions f2 po mc mp lines).map eraseSched :=
  newActions_foldl_erase f1 f2 po mc mp lines [] [] rfl

def line0 : Line :=
  { sku := "92105-S001", item_code := "92105", sku_spec := "92105-S001",
    line_no := "10", qty := 7, price := 0, customer_po := "", delivery := "" }

def order0 : Order :=
  { po_number := "4500193745", customer := "", ship_date := "",
    is_cancel := false, lines := [line0] }

def sched0 : Sched :=
  { file := "Z:\\A.xlsx", fname := "A.xlsx", sheet := "S1", ref := 42,
    cnt := 1, mcol := 30 }

/-- **C1 counterexample**: `smart_diff`'s result does *not* depend only on
`(order, existing_records)`: for the one-line order `order0` with no
existing records, a file-system state in which the SKU Locator finds no
reference and one in which it finds `sched0` give different action
lists — `smart_diff` calls `self.auto_find` (excel_handler.py:1248),
which reads the mapping table and the spreadsheet corpus from disk. -/
theorem c1_counterexample :
    smart_diff (fun _ => none) order0 [] ≠
    smart_diff (fun _ => some sched0) order0 [] := by decide

/-- **C1 (amended)**: `smart_diff` performs no writes and depends on the
file system only through the Schedule References attached to `new`
actions: for any two states of the SKU Locator's oracle, the two results
agree after erasing the `schedule` component of every action — the
sequence of action kinds, targeted records, changed columns, SKUs and
detail strings is a function of `(order, existing_records)` alone. -/
theorem c1_diff_fs_independent_up_to_schedule
    (f1 f2 : String → Option Sched) (pdf : Order) (existing : List Rec) :
    (smart_diff f1 pdf existing).map eraseSched =
    (smart_diff f2 pdf existing).map eraseSched := by
  unfold smart_diff
  simp only [List.map_append]
  exact congrArg (fun x =>
    ((existing.foldl (diffStep pdf (buildByPoline pdf.po_number pdf.lines)
      (buildByCode pdf.lines)) ⟨[], [], []⟩).actions).map eraseSched ++ x)
    (newActions_erase f1 f2 pdf.po_number _ _ pdf.lines)

/-! ### C6: cross-PO matches never produce a Modify -/

theorem newActions_foldl_no_modify (f : String → Option Sched) (po : String)
    (mc mp : List String) :
    ∀ (lines : List Line) (acc : List Act),
      (∀ r ch sku det, Act.modify r ch sku det ∉ acc) →
      ∀ r ch sku det,
        Act.modify r ch sku det ∉ lines.foldl (newStep f po mc mp) acc := by
  intro lines
  induction lines with
  | nil => intro acc h; simpa using h
  | cons ln rest ih =>
      intro acc hacc
      simp only [List.foldl_cons]
      apply ih
      intro r ch sku det hmem
      simp only [newStep] at hmem
      by_cases hA : (item_code ln.sku ≠ "" ∧ item_code ln.sku ∈ mc) ∨
          ((if po ≠ "" ∧ ln.line_no ≠ "" then po ++ "-" ++ ln.line_no else "") ≠ "" ∧
           (if po ≠ "" ∧ ln.line_no ≠ "" then po ++ "-" ++ ln.line_no else "") ∈ mp)
      · rw [if_pos hA] at hmem
        exact hacc r ch sku det hmem
      · rw [if_neg hA] at hmem
        rcases List.mem_append.mp hmem with h | h
        · exact hacc r ch sku det h
        · simp at h

/-- Invariant of the record loop: every Modify action carries a record
whose `D`-column PO is substring-compatible with the order's PO. -/
theorem diffFold_modify_samePo (pdf : Order)
    (nb1 nb2 : String → Option Line) :
    ∀ (existing : List Rec) (acc : DiffAcc),
      (∀ r ch sku det, Act.modify r ch sku det ∈ acc.actions →
        pdf.po_number ≠ "" ∧ rdStrOr r.data "D" ≠ "" ∧
        (pyIn pdf.po_number (rdStrOr r.data "D") = true ∨
         pyIn (rdStrOr r.data "D") pdf.po_number = true)) →
      ∀ r ch sku det,
        Act.modify r ch sku det ∈
          (existing.foldl (diffStep pdf nb1 nb2) acc).actions →
        pdf.po_number ≠ "" ∧ rdStrOr r.data "D" ≠ "" ∧
        (pyIn pdf.po_number (rdStrOr r.data "D") = true ∨
         pyIn (rdStrOr r.data "D") pdf.po_number = true) := by
  intro existing
  induction existing with
  | nil => intro acc h; simpa using h
  | cons rec rest ih =>
      intro acc hacc
      simp only [List.foldl_cons]
      apply ih
      intro r ch sku det hmem
      simp only [diffStep] at hmem
      split at hmem
      · exact hacc r ch sku det hmem
      · rename_i ln mcode poKey heq
        by_cases hsp : pdf.po_number ≠ "" ∧ rdStrOr rec.data "D" ≠ "" ∧
            (pyIn pdf.po_number (rdStrOr rec.data "D") = true ∨
             pyIn (rdStrOr rec.data "D") pdf.po_number = true)
        · rw [if_neg (not_not_intro hsp)] at hmem
          split at hmem
          · rcases List.mem_append.mp hmem with h | h
            · exact hacc r ch sku det h
            · have h' := List.mem_singleton.mp h
              injection h' with hr hch hsku hdet
              subst hr
              exact hsp
          · exact hacc r ch sku det hmem
        · rw [if_pos hsp] at hmem
          exact hacc r ch sku det hmem

/-- **C6**: for every Modify action emitted by the Diff Engine, the
targeted record's PO number (column `D`) is substring-compatible with the
current order's PO number; equivalently, an existing record matched by
item code but belonging to a different PO never receives a Modify, even
when field values differ (excel_handler.py:1143-1153 skips change
computation when `same_po` is false). -/
theorem c6_cross_po_no_modify (f : String → Option Sched) (pdf : Order)
    (existing : List Rec) (r : Rec) (ch : List (String × CellVal))
    (sku det : String)
    (h : Act.modify r ch sku det ∈ smart_diff f pdf existing) :
    pdf.po_number ≠ "" ∧ rdStrOr r.data "D" ≠ "" ∧
    (pyIn pdf.po_number (rdStrOr r.data "D") = true ∨
     pyIn (rdStrOr r.data "D") pdf.po_number = true) := by
  unfold smart_diff at h
  rcases List.mem_append.mp h with h | h
  · exact diffFold_modify_samePo pdf _ _ existing ⟨[], [], []⟩
      (by intro r ch sku det hmem; simp at hmem) r ch sku det h
  · exact absurd h (newActions_foldl_no_modify f pdf.po_number _ _ pdf.lines []
      (by intro r ch sku det hmem; simp at hmem) r ch sku det)

def rec0 : Rec :=
  { file := "Z:\\A.xlsx", fname := "A.xlsx", sheet := "S1", row := 15,
    data := [("D", .str "4500193745"), ("F", .str "92105-S001"),
             ("I", .intV 5)] }

/-- Witness for C6: on the concrete order `order0` and record `rec0`
(same PO, quantity 5 vs 7), `smart_diff` does emit a Modify, and the
theorem instantiates to its record. -/
theorem c6_witness :
    order0.po_number ≠ "" ∧ rdStrOr rec0.data "D" ≠ "" ∧
    (pyIn order0.po_number (rdStrOr rec0.data "D") = true ∨
     pyIn (rdStrOr rec0.data "D") order0.po_number = true) :=
  c6_cross_po_no_modify (fun _ => none) order0 [rec0] rec0
    [("I", .intV 7)] "92105-S001"
    (modifyDetail "92105-S001" [("I", .intV 7)]) (by decide)

/-! ### C2: order assembly of the batch upload endpoint (app.py:214-282)

`batch_upload` assembles, per parsed file, the action list shown to the
user and a structured issues feed.  The SKU cache built in step 3
memoizes `handler.auto_find`, i.e. the same oracle `f`. -/

structure Issue where
  category : String
  title : String
  icon : String
  color : String
  filename : String
  sku : String
  time : String
  tip : String
deriving DecidableEq

/-- The `sku_not_found` issue record built at app.py:247-259. -/
def skuNotFoundIssue (now filename po sku : String) : Issue :=
  { category := "sku_not_found",
    title := "无相同货号(item)，无法写入 · " ++ sku ++ " · PO " ++ po,
    icon := "bi-exclamation-triangle",
    color := "danger",
    filename := filename,
    sku := sku,
    time := now,
    tip := "PO " ++ po ++ " 的货号 \"" ++ sku ++
      "\" 在Z盘所有排期文件中未找到相同item的参考行。\n" ++
      "因为中文名、内箱、外箱、总箱数等产品固有属性必须从同货号参考行复制，\n" ++
      "无参考行则无法保证数据正确性，此行跳过不写入。\n" ++
      "请手动到对应排期文件中录入，或检查货号是否正确。" }

def rdGetOr (rd : List (String × CellVal)) (k : String) : CellVal :=
  match rd.find? (fun p => p.1 == k) with
  | some p => p.2
  | none => .str ""

def pyOrCell (a b : CellVal) : CellVal := if pyTruthy a then a else b

def cancelSku (rec : Rec) : String :=
  pyStr (pyOrCell (rdGetOr rec.data "F") (rdGetOr rec.data "G"))

def cancelDetail (rec : Rec) : String :=
  "取消 " ++ pyStr (rdGetOr rec.data "F") ++ " 行" ++ Nat.repr rec.row

/-- One iteration of the new-order loop (app.py:243-265): look the SKU up
in the cache (= the `auto_find` oracle), surface an issue when absent,
and append the new action either way. -/
def newBranchStep (f : String → Option Sched) (now filename po : String)
    (acc : List Act × List Issue) (ln : Line) : List Act × List Issue :=
  let sku0 := pyOrS ln.item_code ln.sku
  let sched := f sku0
  let issues := if sched.isNone then
      acc.2 ++ [skuNotFoundIssue now filename po sku0]
    else acc.2
  (acc.1 ++ [Act.new ln sched ln.sku (newDetail ln)], issues)

structure UploadResult where
  actions : List Act
  issues : List Issue
deriving DecidableEq

/-- Step 4 of `batch_upload` for one parsed file: cancel orders map
existing records to cancel actions; orders with existing PO records go
through `smart_diff` (producing *no* issues); orders without existing
records go through the new-order loop. -/
def assembleOrder (f : String → Option Sched) (now filename : String)
    (data : Order) (existing : List Rec) : UploadResult :=
  if data.is_cancel then
    { actions := existing.map (fun rec =>
        Act.cancel rec (cancelSku rec) (cancelDetail rec)),
      issues := [] }
  else if existing ≠ [] then
    { actions := smart_diff f data existing, issues := [] }
  else
    let per := data.lines.foldl (newBranchStep f now filename data.po_number)
      ([], [])
    { actions := per.1, issues := per.2 }

def recD : Rec :=
  { file := "Z:\\A.xlsx", fname := "A.xlsx", sheet := "S1", row := 20,
    data := [("D", .str "4500193745")] }

/-- **C2 counterexample**: on the diff path (existing PO records present),
a New action whose Schedule Reference is absent is *not* surfaced as an
issue.  Order `order0` has the existing record `recD` (same PO, no
matching item column), so `batch_upload` takes the `smart_diff` branch:
the result contains a `new` action with `schedule = None` for line
`line0`, yet the issues feed is empty — and `batch_process`
(excel_handler.py:1312, 1386) skips schedule-less new actions without any
report. -/
theorem c2_counterexample :
    (Act.new line0 none "92105-S001" (newDetail line0) ∈
      (assembleOrder (fun _ => none) "t" "o.pdf" order0 [recD]).actions) ∧
    (assembleOrder (fun _ => none) "t" "o.pdf" order0 [recD]).issues = [] := by
  decide

theorem newBranch_invariant (f : String → Option Sched)
    (now filename po : String) :
    ∀ (lines : List Line) (acc : List Act × List Issue),
      (∀ ln sku det, Act.new ln none sku det ∈ acc.1 →
        ∃ iss ∈ acc.2, iss.sku = pyOrS ln.item_code ln.sku ∧
          iss.category = "sku_not_found") →
      ∀ ln sku det,
        Act.new ln none sku det ∈
          (lines.foldl (newBranchStep f now filename po) acc).1 →
        ∃ iss ∈ (lines.foldl (newBranchStep f now filename po) acc).2,
          iss.sku = pyOrS ln.item_code ln.sku ∧
          iss.category = "sku_not_found" := by
  intro lines
  induction lines with
  | nil => intro acc h; simpa using h
  | cons l rest ih =>
      intro acc hacc
      simp only [List.foldl_cons]
      apply ih
      intro ln sku det hmem
      simp only [newBranchStep] at hmem
      cases hf : f (pyOrS l.item_code l.sku) with
      | none =>
          rw [hf] at hmem
          rcases List.mem_append.mp hmem with h | h
          · rcases hacc ln sku det h with ⟨iss, hiss, hprop⟩
            exact ⟨iss, by simp [newBranchStep, hf, List.mem_append, hiss], hprop⟩
          · have h' := List.mem_singleton.mp h
            injection h' with hl hs _ _
            subst hl
            exact ⟨skuNotFoundIssue now filename po (pyOrS ln.item_code ln.sku),
              by simp [newBranchStep, hf], rfl, rfl⟩
      | some sch =>
          rw [hf] at hmem
          rcases List.mem_append.mp hmem with h | h
          · rcases hacc ln sku det h with ⟨iss, hiss, hprop⟩
            exact ⟨iss, by simp [newBranchStep, hf, hiss], hprop⟩
          · have h' := List.mem_singleton.mp h
            injection h' with _ hs _ _
            exact absurd hs (by simp)

/-- **C2 (amended)**: only on the no-existing-records path does the
assembly surface unresolvable New actions: when an order is not a cancel
and has no existing PO records, every `new` action with an absent
Schedule Reference is accompanied by a `sku_not_found` issue whose `sku`
field is the looked-up SKU of that line (app.py:243-265).  On the diff
path (existing records present) no issue is produced
(`c2_counterexample`). -/
theorem c2_new_path_surfaces_issue (f : String → Option Sched)
    (now filename : String) (data : Order)
    (hnc : data.is_cancel = false)
    (ln : Line) (sku det : String)
    (hmem : Act.new ln none sku det ∈
      (assembleOrder f now filename data []).actions) :
    ∃ iss ∈ (assembleOrder f now filename data []).issues,
      iss.sku = pyOrS ln.item_code ln.sku ∧
      iss.category = "sku_not_found" := by
  unfold assembleOrder at hmem ⊢
  rw [if_neg (by simp [hnc]), if_neg (by simp)] at hmem ⊢
  exact newBranch_invariant f now filename data.po_number data.lines ([], [])
    (by intro ln sku det h; simp at h) ln sku det hmem

/-- Witness for C2's amended theorem: the concrete no-existing-records
order `order0` with a locator that finds nothing yields the issue. -/
theorem c2_witness :
    ∃ iss ∈ (assembleOrder (fun _ => none) "t" "o.pdf" order0 []).issues,
      iss.sku = pyOrS line0.item_code line0.sku ∧
      iss.category = "sku_not_found" :=
  c2_new_path_surfaces_issue (fun _ => none) "t" "o.pdf" order0 rfl
    line0 "92105-S001" (newDetail line0) (by decide)

/-! ### `batch_process` per-file mutation sequence (excel_handler.py:1344-1417)

One file bucket holds `new`/`modify`/`cancel` action payloads grouped by
target file.  The straight-line processing of one bucket is modelled as
an event trace: backup and local-copy first, then cancels (sorted by row,
descending), then modifies (with same-sheet row compensation), then news
(with per-sheet insertion offsets).  `_do_new_com`'s chosen insert
position depends on live sheet contents; it is abstracted as the oracle
`posF (sheet, adjRef, startAfter)`.  The vocabulary also has lock
acquire/release events — the ones `file_lock` (excel_handler.py:46-56)
would produce — so that their absence from the commit trace is
expressible. -/

structure NewOp where
  line : Line
  schedule : Option Sched
  sku : String
deriving DecidableEq

structure ModOp where
  record : Rec
  changes : List (String × CellVal)
  sku : String
deriving DecidableEq

structure CanOp where
  record : Rec
  sku : String
deriving DecidableEq

structure FileOps where
  file : String
  new : List NewOp
  modify : List ModOp
  cancel : List CanOp
deriving DecidableEq

inductive Ev where
  | backup (src dst : String)
  | copyLocal (src dst : String)
  | openWb (path : String)
  | acquireLock (path : String)
  | releaseLock (path : String)
  | cancelRow (sheet : String) (row : Nat)
  | modifyCells (sheet : String) (row : Nat) (changes : List (String × CellVal))
  | newRow (sheet : String) (adjRef : Nat) (startAfter : Nat)
  | save
  | closeWb
  | saveZ (src dst : String)
deriving DecidableEq

def pathJoin (a b : String) : String := a ++ "\\" ++ b

def DESKTOP : String := "C:\\Users\\Administrator\\Desktop"

def BATCH_DIR : String := pathJoin DESKTOP "batch_temp"

def UNDO_DIR : String := pathJoin BATCH_DIR "undo"

/-- `os.path.basename`. -/
def baseName (p : String) : String :=
  ⟨p.data.foldl (fun acc c => if c = '\\' ∨ c = '/' then [] else acc ++ [c]) []⟩

/-- Stable insertion into a row-descending list: later elements with equal
row go after earlier ones, as Python's stable `sorted(..., reverse=True)`. -/
def insDesc (a : CanOp) : List CanOp → List CanOp
  | [] => [a]
  | b :: l => if b.record.row > a.record.row then b :: insDesc a l
              else a :: b :: l

/-- `sorted(ops['cancel'], key=lambda x: x['record']['row'], reverse=True)`. -/
def sortDesc (l : List CanOp) : List CanOp := l.foldr insDesc []

def deletedRowsOf (ops : FileOps) : List (String × Nat) :=
  (sortDesc ops.cancel).map (fun a => (a.record.sheet, a.record.row))

def cancelEvsOf (ops : FileOps) : List Ev :=
  (sortDesc ops.cancel).map (fun a => Ev.cancelRow a.record.sheet a.record.row)

/-- Row shift of one Modify: same-sheet deleted rows with smaller original
row number (excel_handler.py:1375). -/
def modShift (deleted : List (String × Nat)) (sn : String) (row : Nat) : Nat :=
  deleted.countP (fun p => p.1 == sn && decide (p.2 < row))

def modifyEvsOf (ops : FileOps) : List Ev :=
  ops.modify.map (fun a =>
    Ev.modifyCells a.record.sheet
      (a.record.row - modShift (deletedRowsOf ops) a.record.sheet a.record.row)
      a.changes)

def updF {β : Type} (g : String → β) (k : String) (v : β) : String → β :=
  fun x => if x = k then v else g x

/-- One iteration of the news loop (excel_handler.py:1385-1406):
schedule-less news are skipped; the reference row is shifted by same-sheet
cancels below it and by this batch's earlier insertions on the sheet. -/
def newStepEv (posF : String → Nat → Nat → Nat) (deleted : List (String × Nat))
    (st : (String → List Nat) × (String → Nat) × List Ev) (a : NewOp) :
    (String → List Nat) × (String → Nat) × List Ev :=
  match a.schedule with
  | none => st
  | some sched =>
      let sn := sched.sheet
      let shiftDel := modShift deleted sn sched.ref
      let adjRef0 := sched.ref - shiftDel
      let adjRef := (st.1 sn).foldl (fun r p => if p ≤ r then r + 1 else r) adjRef0
      let startAfter := st.2.1 sn
      let pos := posF sn adjRef startAfter
      (updF st.1 sn (st.1 sn ++ [pos]), updF st.2.1 sn pos,
       st.2.2 ++ [Ev.newRow sn adjRef startAfter])

def newEvsOf (posF : String → Nat → Nat → Nat) (ops : FileOps) : List Ev :=
  (ops.new.foldl (newStepEv posF (deletedRowsOf ops))
    (fun _ => [], fun _ => 0, [])).2.2

/-- The pre-mutation events: backup to the undo directory (line 1352),
copy to the local staging file (line 1353), open the staged workbook
(line 1354). -/
def headEvsOf (batchId : String) (ops : FileOps) : List Ev :=
  [Ev.backup ops.file
     (pathJoin UNDO_DIR (batchId ++ "_" ++ baseName ops.file)),
   Ev.copyLocal ops.file (pathJoin BATCH_DIR (baseName ops.file)),
   Ev.openWb (pathJoin BATCH_DIR (baseName ops.file))]

/-- Post-mutation events: save, close, copy back to the Z drive
(lines 1408-1414). -/
def tailEvsOf (ops : FileOps) : List Ev :=
  [Ev.save, Ev.closeWb,
   Ev.saveZ (pathJoin BATCH_DIR (baseName ops.file)) ops.file]

/-- The straight-line per-file commit sequence of `batch_process`
(excel_handler.py:1349-1417). -/
def processFileTrace (posF : String → Nat → Nat → Nat) (batchId : String)
    (ops : FileOps) : List Ev :=
  headEvsOf batchId ops ++
    (cancelEvsOf ops ++ (modifyEvsOf ops ++ (newEvsOf posF ops ++
      tailEvsOf ops)))

def isBackupEv : Ev → Bool
  | .backup _ _ => true
  | _ => false

def isCancelEv : Ev → Bool
  | .cancelRow _ _ => true
  | _ => false

def isModifyEv : Ev → Bool
  | .modifyCells _ _ _ => true
  | _ => false

def isNewEv : Ev → Bool
  | .newRow _ _ _ => true
  | _ => false

/-- Events that mutate cells of the target file. -/
def isMutEv (e : Ev) : Bool := isCancelEv e || isModifyEv e || isNewEv e

def isLockEv : Ev → Bool
  | .acquireLock _ => true
  | .releaseLock _ => true
  | _ => false

/-! ### C3 / C4 / C9 theorems about the commit trace -/

theorem before_in_append {α : Type} (P Q : α → Bool) (l1 l2 : List α)
    (h1 : ∀ x ∈ l1, Q x = false) (h2 : ∀ x ∈ l2, P x = false) :
    ∀ i j (hi : i < (l1 ++ l2).length) (hj : j < (l1 ++ l2).length),
      P ((l1 ++ l2).get ⟨i, hi⟩) = true → Q ((l1 ++ l2).get ⟨j, hj⟩) = true →
      i < j := by
  intro i j hi hj hP hQ
  by_cases hil : i < l1.length
  · by_cases hjl : j < l1.length
    · exfalso
      have hmem : (l1 ++ l2).get ⟨j, hj⟩ ∈ l1 := by
        rw [List.get_append j hjl]
        exact List.get_mem l1 _ hjl
      rw [h1 _ hmem] at hQ
      cases hQ
    · omega
  · exfalso
    have hge : l1.length ≤ i := le_of_not_lt hil
    have hlen : i - l1.length < l2.length := by
      simp only [List.length_append] at hi
      omega
    have hmem : (l1 ++ l2).get ⟨i, hi⟩ ∈ l2 := by
      rw [@List.get_append_right _ i l1 l2 hge hi hlen]
      exact List.get_mem l2 _ hlen
    rw [h2 _ hmem] at hP
    cases hP

theorem mem_cancelEvs (ops : FileOps) :
    ∀ e ∈ cancelEvsOf ops, isCancelEv e = true := by
  intro e he
  rcases List.mem_map.mp he with ⟨a, _, rfl⟩
  rfl

theorem mem_modifyEvs (ops : FileOps) :
    ∀ e ∈ modifyEvsOf ops, isModifyEv e = true := by
  intro e he
  rcases List.mem_map.mp he with ⟨a, _, rfl⟩
  rfl

theorem newEvs_foldl_class (posF : String → Nat → Nat → Nat)
    (deleted : List (String × Nat)) :
    ∀ (l : List NewOp) (st : (String → List Nat) × (String → Nat) × List Ev),
      (∀ e ∈ st.2.2, isNewEv e = true) →
      ∀ e ∈ (l.foldl (newStepEv posF deleted) st).2.2, isNewEv e = true := by
  intro l
  induction l with
  | nil => intro st h; simpa using h
  | cons a rest ih =>
      intro st hst
      simp only [List.foldl_cons]
      apply ih
      intro e he
      simp only [newStepEv] at he
      cases hs : a.schedule with
      | none => rw [hs] at he; exact hst e he
      | some sched =>
          rw [hs] at he
          rcases List.mem_append.mp he with h | h
          · exact hst e h
          · rw [List.mem_singleton.mp h]; rfl

theorem mem_newEvs (posF : String → Nat → Nat → Nat) (ops : FileOps) :
    ∀ e ∈ newEvsOf posF ops, isNewEv e = true := by
  intro e he
  exact newEvs_foldl_class posF (deletedRowsOf ops) ops.new
    (fun _ => [], fun _ => 0, []) (by intro e h; simp at h) e he

theorem before_of_split {α : Type} (P Q : α → Bool) (T l1 l2 : List α)
    (e : T = l1 ++ l2)
    (h1 : ∀ x ∈ l1, Q x = false) (h2 : ∀ x ∈ l2, P x = false) :
    ∀ i j (hi : i < T.length) (hj : j < T.length),
      P (T.get ⟨i, hi⟩) = true → Q (T.get ⟨j, hj⟩) = true → i < j := by
  subst e
  exact before_in_append P Q l1 l2 h1 h2

theorem headEvs_class (batchId : String) (ops : FileOps) :
    ∀ x ∈ headEvsOf batchId ops, isMutEv x = false ∧ isCancelEv x = false ∧
      isModifyEv x = false ∧ isNewEv x = false := by
  intro x hx
  simp only [headEvsOf, List.mem_cons, List.mem_singleton] at hx
  rcases hx with rfl | rfl | rfl | hx
  · exact ⟨rfl, rfl, rfl, rfl⟩
  · exact ⟨rfl, rfl, rfl, rfl⟩
  · exact ⟨rfl, rfl, rfl, rfl⟩
  · cases hx

theorem tailEvs_class (ops : FileOps) :
    ∀ x ∈ tailEvsOf ops, isMutEv x = false ∧ isCancelEv x = false ∧
      isModifyEv x = false ∧ isNewEv x = false ∧ isBackupEv x = false := by
  intro x hx
  simp only [tailEvsOf, List.mem_cons, List.mem_singleton] at hx
  rcases hx with rfl | rfl | rfl | hx
  · exact ⟨rfl, rfl, rfl, rfl, rfl⟩
  · exact ⟨rfl, rfl, rfl, rfl, rfl⟩
  · exact ⟨rfl, rfl, rfl, rfl, rfl⟩
  · cases hx

theorem cancelEvs_class (ops : FileOps) :
    ∀ x ∈ cancelEvsOf ops, isModifyEv x = false ∧ isNewEv x = false ∧
      isBackupEv x = false := by
  intro x hx
  rcases List.mem_map.mp hx with ⟨a, _, rfl⟩
  exact ⟨rfl, rfl, rfl⟩

theorem modifyEvs_class (ops : FileOps) :
    ∀ x ∈ modifyEvsOf ops, isCancelEv x = false ∧ isNewEv x = false ∧
      isBackupEv x = false := by
  intro x hx
  rcases List.mem_map.mp hx with ⟨a, _, rfl⟩
  exact ⟨rfl, rfl, rfl⟩

theorem newEvs_class (posF : String → Nat → Nat → Nat) (ops : FileOps) :
    ∀ x ∈ newEvsOf posF ops, isCancelEv x = false ∧ isModifyEv x = false ∧
      isBackupEv x = false := by
  intro x hx
  have := mem_newEvs posF ops x hx
  cases x <;> simp_all [isNewEv, isCancelEv, isModifyEv, isBackupEv]

/-- **C3**: within one file bucket of a batch commit, the full-file backup
is the first event of the per-file sequence — it exists before any cell
mutation — and the mutation phases are ordered Cancels, then Modifies,
then News (excel_handler.py:1349-1406). -/
theorem c3_backup_first_and_phase_order (posF : String → Nat → Nat → Nat)
    (batchId : String) (ops : FileOps) :
    (∃ hb : 0 < (processFileTrace posF batchId ops).length,
       isBackupEv ((processFileTrace posF batchId ops).get ⟨0, hb⟩) = true) ∧
    (∀ i j (hi : i < (processFileTrace posF batchId ops).length)
       (hj : j < (processFileTrace posF batchId ops).length),
       isBackupEv ((processFileTrace posF batchId ops).get ⟨i, hi⟩) = true →
       isMutEv ((processFileTrace posF batchId ops).get ⟨j, hj⟩) = true →
       i < j) ∧
    (∀ i j (hi : i < (processFileTrace posF batchId ops).length)
       (hj : j < (processFileTrace posF batchId ops).length),
       isCancelEv ((processFileTrace posF batchId ops).get ⟨i, hi⟩) = true →
       isModifyEv ((processFileTrace posF batchId ops).get ⟨j, hj⟩) = true →
       i < j) ∧
    (∀ i j (hi : i < (processFileTrace posF batchId ops).length)
       (hj : j < (processFileTrace posF batchId ops).length),
       isCancelEv ((processFileTrace posF batchId ops).get ⟨i, hi⟩) = true →
       isNewEv ((processFileTrace posF batchId ops).get ⟨j, hj⟩) = true →
       i < j) ∧
    (∀ i j (hi : i < (processFileTrace posF batchId ops).length)
       (hj : j < (processFileTrace posF batchId ops).length),
       isModifyEv ((processFileTrace posF batchId ops).get ⟨i, hi⟩) = true →
       isNewEv ((processFileTrace posF batchId ops).get ⟨j, hj⟩) = true →
       i < j) := by
  refine ⟨⟨by simp [processFileTrace, headEvsOf], rfl⟩, ?_, ?_, ?_, ?_⟩
  · refine before_of_split isBackupEv isMutEv _ (headEvsOf batchId ops)
      (cancelEvsOf ops ++ (modifyEvsOf ops ++ (newEvsOf posF ops ++
        tailEvsOf ops))) rfl
      (fun x hx => (headEvs_class batchId ops x hx).1) ?_
    intro x hx
    rcases List.mem_append.mp hx with hx | hx
    · exact (cancelEvs_class ops x hx).2.2
    rcases List.mem_append.mp hx with hx | hx
    · exact (modifyEvs_class ops x hx).2.2
    rcases List.mem_append.mp hx with hx | hx
    · exact (newEvs_class posF ops x hx).2.2
    · exact (tailEvs_class ops x hx).2.2.2.2
  · refine before_of_split isCancelEv isModifyEv _
      (headEvsOf batchId ops ++ cancelEvsOf ops)
      (modifyEvsOf ops ++ (newEvsOf posF ops ++ tailEvsOf ops))
      (by simp [processFileTrace, List.append_assoc]) ?_ ?_
    · intro x hx
      rcases List.mem_append.mp hx with hx | hx
      · exact (headEvs_class batchId ops x hx).2.2.1
      · exact (cancelEvs_class ops x hx).1
    · intro x hx
      rcases List.mem_append.mp hx with hx | hx
      · exact (modifyEvs_class ops x hx).1
      rcases List.mem_append.mp hx with hx | hx
      · exact (newEvs_class posF ops x hx).1
      · exact (tailEvs_class ops x hx).2.1
  · refine before_of_split isCancelEv isNewEv _
      (headEvsOf batchId ops ++ (cancelEvsOf ops ++ modifyEvsOf ops))
      (newEvsOf posF ops ++ tailEvsOf ops)
      (by simp [processFileTrace, List.append_assoc]) ?_ ?_
    · intro x hx
      rcases List.mem_append.mp hx with hx | hx
      · exact (headEvs_class batchId ops x hx).2.2.2
      rcases List.mem_append.mp hx with hx | hx
      · exact (cancelEvs_class ops x hx).2.1
      · exact (modifyEvs_class ops x hx).2.1
    · intro x hx
      rcases List.mem_append.mp hx with hx | hx
      · exact (newEvs_class posF ops x hx).1
      · exact (tailEvs_class ops x hx).2.1
  · refine before_of_split isModifyEv isNewEv _
      (headEvsOf batchId ops ++ (cancelEvsOf ops ++ modifyEvsOf ops))
      (newEvsOf posF ops ++ tailEvsOf ops)
      (by simp [processFileTrace, List.append_assoc]) ?_ ?_
    · intro x hx
      rcases List.mem_append.mp hx with hx | hx
      · exact (headEvs_class batchId ops x hx).2.2.2
      rcases List.mem_append.mp hx with hx | hx
      · exact (cancelEvs_class ops x hx).2.1
      · exact (modifyEvs_class ops x hx).2.1
    · intro x hx
      rcases List.mem_append.mp hx with hx | hx
      · exact (newEvs_class posF ops x hx).2.1
      · exact (tailEvs_class ops x hx).2.2.1

def can10 : CanOp :=
  { record := { file := "Z:\\A.xlsx", fname := "A.xlsx", sheet := "SheetA",
                row := 10, data := [] },
    sku := "92105" }

def mod15 : ModOp :=
  { record := { file := "Z:\\A.xlsx", fname := "A.xlsx", sheet := "SheetA",
                row := 15, data := [] },
    changes := [("I", .intV 7)], sku := "92105" }

def new42 : NewOp :=
  { line := line0, schedule := some sched0, sku := "92105-S001" }

def ops10 : FileOps :=
  { file := "Z:\\A.xlsx", new := [new42], modify := [mod15],
    cancel := [can10] }

/-- Witness for C3: on the concrete bucket `ops10` (one cancel, one
modify, one new) the cancel event sits at index 3 and the modify event at
index 4 of the trace, and the theorem yields `3 < 4`. -/
theorem c3_witness :
    isCancelEv ((processFileTrace (fun _ _ _ => 21) "b1" ops10).get
      ⟨3, by decide⟩) = true ∧
    isModifyEv ((processFileTrace (fun _ _ _ => 21) "b1" ops10).get
      ⟨4, by decide⟩) = true ∧
    3 < 4 :=
  ⟨by decide, by decide,
    (c3_backup_first_and_phase_order (fun _ _ _ => 21) "b1" ops10).2.2.1
      3 4 (by decide) (by decide) (by decide) (by decide)⟩

/-! ### C4: cancel ordering and modify row compensation -/

def rowOfEv : Ev → Nat
  | .cancelRow _ r => r
  | .modifyCells _ r _ => r
  | .newRow _ r _ => r
  | _ => 0

theorem insDesc_perm (a : CanOp) (l : List CanOp) :
    List.Perm (insDesc a l) (a :: l) := by
  induction l with
  | nil => exact List.Perm.refl _
  | cons b t ih =>
      simp only [insDesc]
      by_cases h : b.record.row > a.record.row
      · rw [if_pos h]
        exact ((ih.cons b).trans (List.Perm.swap a b t))
      · rw [if_neg h]

theorem sortDesc_perm (l : List CanOp) : List.Perm (sortDesc l) l := by
  induction l with
  | nil => exact List.Perm.refl _
  | cons a t ih =>
      have : sortDesc (a :: t) = insDesc a (sortDesc t) := rfl
      rw [this]
      exact (insDesc_perm a (sortDesc t)).trans (ih.cons a)

theorem mem_insDesc (a x : CanOp) (l : List CanOp) :
    x ∈ insDesc a l ↔ x = a ∨ x ∈ l := by
  rw [(insDesc_perm a l).mem_iff]
  simp

theorem insDesc_sorted (a : CanOp) (l : List CanOp)
    (h : List.Pairwise (fun x y => y.record.row ≤ x.record.row) l) :
    List.Pairwise (fun x y => y.record.row ≤ x.record.row) (insDesc a l) := by
  induction l with
  | nil => simp [insDesc]
  | cons b t ih =>
      simp only [insDesc]
      rcases List.pairwise_cons.mp h with ⟨hb, ht⟩
      by_cases hcmp : b.record.row > a.record.row
      · rw [if_pos hcmp]
        refine List.pairwise_cons.mpr ⟨?_, ih ht⟩
        intro x hx
        rcases (mem_insDesc a x t).mp hx with rfl | hx
        · omega
        · exact hb x hx
      · rw [if_neg hcmp]
        refine List.pairwise_cons.mpr ⟨?_, h⟩
        intro x hx
        rcases List.mem_cons.mp hx with rfl | hx
        · omega
        · have := hb x hx
          omega

theorem sortDesc_sorted (l : List CanOp) :
    List.Pairwise (fun x y => y.record.row ≤ x.record.row) (sortDesc l) := by
  induction l with
  | nil => simp [sortDesc]
  | cons a t ih => exact insDesc_sorted a (sortDesc t) ih

theorem filter_eq_nil_of (p : Ev → Bool) (l : List Ev)
    (h : ∀ x ∈ l, p x = false) : l.filter p = [] := by
  induction l with
  | nil => rfl
  | cons a t ih =>
      simp only [List.filter_cons, h a (by simp)]
      exact ih (fun x hx => h x (by simp [hx]))

theorem filter_eq_self_of (p : Ev → Bool) (l : List Ev)
    (h : ∀ x ∈ l, p x = true) : l.filter p = l := by
  induction l with
  | nil => rfl
  | cons a t ih =>
      simp only [List.filter_cons, h a (by simp)]
      simp [ih (fun x hx => h x (by simp [hx]))]

theorem trace_filter_cancel (posF : String → Nat → Nat → Nat)
    (batchId : String) (ops : FileOps) :
    (processFileTrace posF batchId ops).filter isCancelEv =
      cancelEvsOf ops := by
  unfold processFileTrace
  simp only [List.filter_append]
  rw [filter_eq_nil_of _ _ (fun x hx => (headEvs_class batchId ops x hx).2.1),
    filter_eq_self_of _ _ (mem_cancelEvs ops),
    filter_eq_nil_of _ _ (fun x hx => (modifyEvs_class ops x hx).1),
    filter_eq_nil_of _ _ (fun x hx => (newEvs_class posF ops x hx).1),
    filter_eq_nil_of _ _ (fun x hx => (tailEvs_class ops x hx).2.1)]
  simp

theorem trace_filter_modify (posF : String → Nat → Nat → Nat)
    (batchId : String) (ops : FileOps) :
    (processFileTrace posF batchId ops).filter isModifyEv =
      modifyEvsOf ops := by
  unfold processFileTrace
  simp only [List.filter_append]
  rw [filter_eq_nil_of _ _ (fun x hx => (headEvs_class batchId ops x hx).2.2.1),
    filter_eq_nil_of _ _ (fun x hx => (cancelEvs_class ops x hx).1),
    filter_eq_self_of _ _ (mem_modifyEvs ops),
    filter_eq_nil_of _ _ (fun x hx => (newEvs_class posF ops x hx).2.1),
    filter_eq_nil_of _ _ (fun x hx => (tailEvs_class ops x hx).2.2.1)]
  simp

/-- **C4**: within one file bucket, (i) the cancel events of the trace are
ordered from highest row number to lowest, (ii) they are exactly the
bucket's cancels (a permutation — none added or dropped), (iii) every
modify event is written at the record's original row minus the number of
cancelled rows of the same sheet with a smaller original row number, and
(iv) concretely, cancelling row 10 and modifying original row 15 of the
same sheet writes row 14 (excel_handler.py:1357-1380). -/
theorem c4_cancel_order_and_row_compensation
    (posF : String → Nat → Nat → Nat) (batchId : String) (ops : FileOps) :
    List.Pairwise (fun e1 e2 => rowOfEv e2 ≤ rowOfEv e1)
      ((processFileTrace posF batchId ops).filter isCancelEv) ∧
    List.Perm ((processFileTrace posF batchId ops).filter isCancelEv)
      (ops.cancel.map (fun a => Ev.cancelRow a.record.sheet a.record.row)) ∧
    (processFileTrace posF batchId ops).filter isModifyEv =
      ops.modify.map (fun a => Ev.modifyCells a.record.sheet
        (a.record.row - ops.cancel.countP (fun c =>
          c.record.sheet == a.record.sheet &&
          decide (c.record.row < a.record.row))) a.changes) ∧
    Ev.modifyCells "SheetA" 14 [("I", CellVal.intV 7)] ∈
      processFileTrace (fun _ _ _ => 21) "b1" ops10 := by
  refine ⟨?_, ?_, ?_, by decide⟩
  · rw [trace_filter_cancel]
    unfold cancelEvsOf
    rw [List.pairwise_map]
    exact sortDesc_sorted ops.cancel
  · rw [trace_filter_cancel]
    unfold cancelEvsOf
    exact (sortDesc_perm ops.cancel).map _
  · rw [trace_filter_modify]
    unfold modifyEvsOf modShift deletedRowsOf
    have h : ∀ (sn : String) (row : Nat),
        ((sortDesc ops.cancel).map
          (fun a => (a.record.sheet, a.record.row))).countP
          (fun p => p.1 == sn && decide (p.2 < row)) =
        ops.cancel.countP (fun c =>
          c.record.sheet == sn && decide (c.record.row < row)) := by
      intro sn row
      rw [List.countP_map]
      exact (sortDesc_perm ops.cancel).countP_eq _
    simp only [h]

/-- **C9**: the per-file commit sequence of `batch_process` contains no
lock acquisition or release at all: `file_lock` (excel_handler.py:46-56)
is defined but never invoked on the commit path, so two simultaneous
commits of the same file are not serialized by a per-target-file lock. -/
theorem c9_commit_trace_has_no_lock_events
    (posF : String → Nat → Nat → Nat) (batchId : String) (ops : FileOps)
    (e : Ev) (he : e ∈ processFileTrace posF batchId ops) :
    isLockEv e = false := by
  unfold processFileTrace at he
  rcases List.mem_append.mp he with hx | hx
  · simp only [headEvsOf, List.mem_cons, List.mem_singleton] at hx
    rcases hx with rfl | rfl | rfl | hx
    · rfl
    · rfl
    · rfl
    · cases hx
  rcases List.mem_append.mp hx with hx | hx
  · rcases List.mem_map.mp hx with ⟨a, _, rfl⟩; rfl
  rcases List.mem_append.mp hx with hx | hx
  · rcases List.mem_map.mp hx with ⟨a, _, rfl⟩; rfl
  rcases List.mem_append.mp hx with hx | hx
  · have := mem_newEvs posF ops e hx
    cases e <;> simp_all [isNewEv, isLockEv]
  · simp only [tailEvsOf, List.mem_cons, List.mem_singleton] at hx
    rcases hx with rfl | rfl | rfl | hx
    · rfl
    · rfl
    · rfl
    · cases hx

/-- Witness for C9: the save event of the concrete bucket `ops10`'s trace
is not a lock event. -/
theorem c9_witness : isLockEv Ev.save = false :=
  c9_commit_trace_has_no_lock_events (fun _ _ _ => 21) "b1" ops10 Ev.save
    (by decide)

/-! ### C5: `_search_sku_in_file` row scan (excel_handler.py:534-607)

Within one sheet the scan walks rows (from row 2), looks at candidate
item columns G, F, H (0-based indices 6, 5, 7), and classifies each cell
in three tiers: exact spec-code match, exact base-item-code match, prefix
match with length difference at most 3.  The first classified cell of a
row decides its tier; per tier the scan keeps the last matching row
(preferring rows with a product name in column H) and a match count. -/

structure SheetRow where
  num : Nat
  cells : List CellVal
deriving DecidableEq

inductive Tier where
  | spec
  | exact
  | pfx
deriving DecidableEq

/-- Classify one cell text against the query (the `if`/`elif` chain at
excel_handler.py:566-590); `none` when no tier matches (the loop moves to
the next candidate column). -/
def classifyCell (qSpec qItem : String) (cv : String) : Option Tier :=
  let cvItem := item_code cv
  if cvItem = "" then none
  else
    let cvSpec := sku_spec cv
    if qSpec ≠ "" ∧ cvSpec = qSpec then some .spec
    else if qItem ≠ "" ∧ cvItem = qItem then some .exact
    else if qItem ≠ "" ∧ cvItem ≠ "" ∧
        (cvItem.length - qItem.length ≤ 3 ∧ qItem.length - cvItem.length ≤ 3) ∧
        (qItem.data.isPrefixOf cvItem.data ∨ cvItem.data.isPrefixOf qItem.data)
      then some .pfx
    else none

/-- The candidate-column loop `for ci in [6, 5, 7]` of one row. -/
def rowClassGo (qSpec qItem : String) (r : SheetRow) :
    List Nat → Option Tier
  | [] => none
  | ci :: rest =>
      if ci ≥ r.cells.length then rowClassGo qSpec qItem r rest
      else
        let v := r.cells.getD ci .null
        if ¬ pyTruthy v then rowClassGo qSpec qItem r rest
        else
          match classifyCell qSpec qItem (pyStrip (pyStr v)) with
          | some t => some t
          | none => rowClassGo qSpec qItem r rest

def rowClass (qSpec qItem : String) (r : SheetRow) : Option Tier :=
  rowClassGo qSpec qItem r [6, 5, 7]

/-- `has_name`: column H holds a non-blank product name. -/
def rowHasName (r : SheetRow) : Bool :=
  decide (r.cells.length > 7) && pyTruthy (r.cells.getD 7 .null) &&
    decide (pyStrip (pyStr (r.cells.getD 7 .null)) ≠ "")

/-- `has_any_data`: some of the first eight cells is truthy. -/
def rowHasData (r : SheetRow) : Bool :=
  (List.range (min 8 r.cells.length)).any (fun ci =>
    decide (ci < r.cells.length) && pyTruthy (r.cells.getD ci .null))

structure ScanSt where
  refSpecNamed : Option Nat
  refSpecAny : Option Nat
  cntSpec : Nat
  refExactNamed : Option Nat
  refExactAny : Option Nat
  cntExact : Nat
  refPfxNamed : Option Nat
  refPfxAny : Option Nat
  cntPfx : Nat
  lastDataRow : Option Nat
deriving DecidableEq

def scanInit : ScanSt :=
  ⟨none, none, 0, none, none, 0, none, none, 0, none⟩

/-- One row of the scan loop (excel_handler.py:545-590): the last data
row is updated first, then the tier registers of the row's class. -/
def scanStep (qSpec qItem : String) (st : ScanSt) (r : SheetRow) : ScanSt :=
  let ld := if rowHasData r then some r.num else st.lastDataRow
  match rowClass qSpec qItem r with
  | none => { st with lastDataRow := ld }
  | some .spec =>
      { st with
        lastDataRow := ld,
        refSpecAny := some r.num, cntSpec := st.cntSpec + 1,
        refSpecNamed := if rowHasName r then some r.num else st.refSpecNamed }
  | some .exact =>
      { st with
        lastDataRow := ld,
        refExactAny := some r.num, cntExact := st.cntExact + 1,
        refExactNamed := if rowHasName r then some r.num else st.refExactNamed }
  | some .pfx =>
      { st with
        lastDataRow := ld,
        refPfxAny := some r.num, cntPfx := st.cntPfx + 1,
        refPfxNamed := if rowHasName r then some r.num else st.refPfxNamed }

def scanSheet (qSpec qItem : String) (rows : List SheetRow) : ScanSt :=
  rows.foldl (scanStep qSpec qItem) scanInit

/-- `ref = ref_spec_named or ref_spec_any or ref_exact_named or
ref_exact_any or ref_prefix_named or ref_prefix_any` (row numbers start
at 2, so Python's falsy 0 cannot occur). -/
def sheetRef (st : ScanSt) : Option Nat :=
  st.refSpecNamed <|> st.refSpecAny <|> st.refExactNamed <|>
    st.refExactAny <|> st.refPfxNamed <|> st.refPfxAny

/-- `cnt = cnt_spec or cnt_exact or cnt_prefix`. -/
def sheetCnt (st : ScanSt) : Nat :=
  if st.cntSpec ≠ 0 then st.cntSpec
  else if st.cntExact ≠ 0 then st.cntExact
  else st.cntPfx

theorem scanStep_any_mono (q1 q2 : String) (st : ScanSt) (r : SheetRow)
    (h : st.refSpecAny.isSome = true) :
    ((scanStep q1 q2 st r).refSpecAny).isSome = true := by
  simp only [scanStep]
  cases hc : rowClass q1 q2 r with
  | none => exact h
  | some t => cases t
              · rfl
              · exact h
              · exact h

theorem scan_foldl_any_mono (q1 q2 : String) :
    ∀ (rows : List SheetRow) (st : ScanSt),
      st.refSpecAny.isSome = true →
      ((rows.foldl (scanStep q1 q2) st).refSpecAny).isSome = true := by
  intro rows
  induction rows with
  | nil => intro st h; simpa using h
  | cons r rest ih =>
      intro st h
      simp only [List.foldl_cons]
      exact ih _ (scanStep_any_mono q1 q2 st r h)

theorem scan_foldl_any_some (q1 q2 : String) :
    ∀ (rows : List SheetRow) (st : ScanSt),
      (∃ r ∈ rows, rowClass q1 q2 r = some Tier.spec) →
      ((rows.foldl (scanStep q1 q2) st).refSpecAny).isSome = true := by
  intro rows
  induction rows with
  | nil => intro st h; simp at h
  | cons r rest ih =>
      intro st h
      simp only [List.foldl_cons]
      rcases h with ⟨w, hw, hcls⟩
      rcases List.mem_cons.mp hw with rfl | hw
      · apply scan_foldl_any_mono
        simp [scanStep, hcls]
      · exact ih _ ⟨w, hw, hcls⟩

theorem scan_foldl_specref (q1 q2 : String) (R : Nat → Prop) :
    ∀ (rows : List SheetRow) (st : ScanSt),
      (∀ r ∈ rows, rowClass q1 q2 r = some Tier.spec → R r.num) →
      (∀ n, st.refSpecNamed = some n → R n) →
      (∀ n, st.refSpecAny = some n → R n) →
      (∀ n, (rows.foldl (scanStep q1 q2) st).refSpecNamed = some n → R n) ∧
      (∀ n, (rows.foldl (scanStep q1 q2) st).refSpecAny = some n → R n) := by
  intro rows
  induction rows with
  | nil => intro st _ h1 h2; exact ⟨h1, h2⟩
  | cons r rest ih =>
      intro st hrows h1 h2
      simp only [List.foldl_cons]
      apply ih
      · intro x hx; exact hrows x (by simp [hx])
      · intro n hn
        simp only [scanStep] at hn
        rcases hc : rowClass q1 q2 r with _ | t
        · rw [hc] at hn
          exact h1 n hn
        · rw [hc] at hn
          cases t with
          | spec =>
              have hn2 : (if rowHasName r = true then some r.num
                  else st.refSpecNamed) = some n := hn
              by_cases hb : rowHasName r = true
              · rw [if_pos hb] at hn2
                injection hn2 with hn3
                subst hn3
                exact hrows r (by simp) hc
              · rw [if_neg hb] at hn2
                exact h1 n hn2
          | exact => exact h1 n hn
          | pfx => exact h1 n hn
      · intro n hn
        simp only [scanStep] at hn
        rcases hc : rowClass q1 q2 r with _ | t
        · rw [hc] at hn
          exact h2 n hn
        · rw [hc] at hn
          cases t with
          | spec =>
              have hn2 : some r.num = some n := hn
              injection hn2 with hn3
              subst hn3
              exact hrows r (by simp) hc
          | exact => exact h2 n hn
          | pfx => exact h2 n hn

def mkRow (n : Nat) (item name : String) : SheetRow :=
  { num := n,
    cells := [.null, .null, .null, .null, .null, .null, .str item,
              .str name, .null, .null] }

/-- The spec's scenario sheet: the base-only row comes first. -/
def rows92105 : List SheetRow :=
  [mkRow 2 "92105" "BASE DUCK", mkRow 3 "92105-S001" "DUCK S001",
   mkRow 4 "92105-S004" "DUCK S004"]

/-- **C5**: in the row search of `_search_sku_in_file`, an exact
spec-code match always outranks a base-item-code-only match: whenever
some row of the sheet classifies at the spec tier, the resolved reference
row is a spec-tier row (never a base-only or prefix row), regardless of
row order; and concretely, on a sheet holding `92105`, `92105-S001`,
`92105-S004` (base-only first) the query with spec `92105-S001` resolves
to the `92105-S001` row (excel_handler.py:566-592). -/
theorem c5_spec_match_outranks_base (qSpec qItem : String)
    (rows : List SheetRow)
    (h : ∃ r ∈ rows, rowClass qSpec qItem r = some Tier.spec) :
    (∃ r ∈ rows, rowClass qSpec qItem r = some Tier.spec ∧
      sheetRef (scanSheet qSpec qItem rows) = some r.num) ∧
    sheetRef (scanSheet "92105-S001" "92105" rows92105) = some 3 := by
  constructor
  · have hspec := scan_foldl_specref qSpec qItem
      (fun n => ∃ r ∈ rows, rowClass qSpec qItem r = some Tier.spec ∧
        r.num = n)
      rows scanInit
      (fun r hr hc => ⟨r, hr, hc, rfl⟩)
      (fun n hn => by simp [scanInit] at hn)
      (fun n hn => by simp [scanInit] at hn)
    have hsome := scan_foldl_any_some qSpec qItem rows scanInit h
    cases hn : (scanSheet qSpec qItem rows).refSpecNamed with
    | some n =>
        obtain ⟨r, hr, hcls, hnum⟩ := hspec.1 n hn
        exact ⟨r, hr, hcls, by simp [sheetRef, hn, hnum]⟩
    | none =>
        cases ha : (scanSheet qSpec qItem rows).refSpecAny with
        | none =>
            have hsome2 : ((scanSheet qSpec qItem rows).refSpecAny).isSome =
              true := hsome
            rw [ha] at hsome2
            cases hsome2
        | some m =>
            obtain ⟨r, hr, hcls, hnum⟩ := hspec.2 m ha
            exact ⟨r, hr, hcls, by simp [sheetRef, hn, ha, hnum]⟩
  · decide

/-- Witness for C5: on the concrete sheet the hypothesis holds (row 3 is
a spec-tier match) and the resolved reference is that row. -/
theorem c5_witness :
    ∃ r ∈ rows92105, rowClass "92105-S001" "92105" r = some Tier.spec ∧
      sheetRef (scanSheet "92105-S001" "92105" rows92105) = some r.num :=
  (c5_spec_match_outranks_base "92105-S001" "92105" rows92105 (by decide)).1

/-! ### C8: `undo_selected` (excel_handler.py:2499-2569)

The file system is an oracle: `pathExists` for `os.path.exists`,
`writable` for the `open(z, 'r+b')` probe plus `shutil.copy2` on the
destination.  Undo-ledger entries also carry `time`, `operations` and
`label` fields in the JSON file; `undo_selected` reads only `id` and
`files`, so only those are modelled. -/

structure UndoFile where
  name : String
  backup : String
  z_path : String
deriving DecidableEq

structure UndoEntry where
  id : String
  files : List UndoFile
deriving DecidableEq

structure FsView where
  pathExists : String → Bool
  writable : String → Bool

inductive RestoreOut where
  | ok
  | noBackup
  | noTarget
  | busy
deriving DecidableEq

/-- Outcome of restoring one file (lines 2516-2542): resolve the backup
(with the legacy un-prefixed fallback), resolve the destination (with the
`z_path` root fallback), then probe writability and copy. -/
def restoreOutcome (fs : FsView) (zRoot : String) (f : UndoFile) :
    RestoreOut :=
  let hasB := f.backup ≠ "" ∧ fs.pathExists f.backup = true
  if ¬ (hasB ∨ fs.pathExists (pathJoin UNDO_DIR f.name) = true) then .noBackup
  else
    let hasZ := f.z_path ≠ "" ∧ fs.pathExists f.z_path = true
    if ¬ (hasZ ∨ fs.pathExists (pathJoin zRoot f.name) = true) then .noTarget
    else
      let z := if hasZ then f.z_path else pathJoin zRoot f.name
      if fs.writable z then .ok else .busy

def restoreReason : RestoreOut → String
  | .ok => ""
  | .noBackup => "备份文件不存在"
  | .noTarget => "目标文件不存在"
  | .busy => "文件被占用"

/-- One file of one entry: success appends to `restored`, failure appends
`(name, reason)` to the global `failed` list. -/
def undoFileStep (fs : FsView) (zRoot : String)
    (acc : List String × List (String × String)) (f : UndoFile) :
    List String × List (String × String) :=
  match restoreOutcome fs zRoot f with
  | .ok => (acc.1 ++ [f.name], acc.2)
  | o => (acc.1, acc.2 ++ [(f.name, restoreReason o)])

/-- One entry of the loop (lines 2514-2545): restore its files, then mark
the entry undone only when no name of its files appears in the global
`failed` list accumulated so far. -/
def undoEntryStep (fs : FsView) (zRoot : String)
    (acc : List String × List (String × String) × List String)
    (entry : UndoEntry) :
    List String × List (String × String) × List String :=
  let rf := entry.files.foldl (undoFileStep fs zRoot) (acc.1, acc.2.1)
  let blocked := entry.files.any (fun fi =>
    rf.2.any (fun fr => fr.1 == fi.name))
  (rf.1, rf.2, if blocked then acc.2.2 else acc.2.2 ++ [entry.id])

def toUndoOf (history : List UndoEntry) (batch_ids : List String) :
    List UndoEntry :=
  history.filter (fun h => decide (h.id ∈ batch_ids))

def undoFoldRes (fs : FsView) (zRoot : String) (history : List UndoEntry)
    (batch_ids : List String) :
    List String × List (String × String) × List String :=
  (toUndoOf history batch_ids).foldl (undoEntryStep fs zRoot) ([], [], [])

structure UndoRes where
  error : Option String
  restored : List String
  failed : List (String × String)
  undone_ids : List String
  newHistory : List UndoEntry
  deletedBackups : List String
deriving DecidableEq

/-- `undo_selected(batch_ids)` (excel_handler.py:2499-2569). -/
def undo_selected (fs : FsView) (zRoot : String)
    (history : List UndoEntry) (batch_ids : List String) : UndoRes :=
  if history = [] then
    { error := some "没有可撤回的操作", restored := [], failed := [],
      undone_ids := [], newHistory := history, deletedBackups := [] }
  else if toUndoOf history batch_ids = [] then
    { error := some "未找到指定的操作记录", restored := [], failed := [],
      undone_ids := [], newHistory := history, deletedBackups := [] }
  else
    let res := undoFoldRes fs zRoot history batch_ids
    if res.2.2 ≠ [] then
      { error := none, restored := res.1, failed := res.2.1,
        undone_ids := res.2.2,
        newHistory := history.filter (fun h => decide (h.id ∉ res.2.2)),
        deletedBackups :=
          (history.filter (fun h => decide (h.id ∈ res.2.2))).flatMap
            (fun h => (h.files.filter (fun fi =>
              decide (fi.backup ≠ "") && fs.pathExists fi.backup)).map
                (fun fi => fi.backup)) }
    else
      { error := none, restored := res.1, failed := res.2.1,
        undone_ids := res.2.2, newHistory := history,
        deletedBackups := [] }

theorem undoFileFold_failed_mono (fs : FsView) (zRoot : String) :
    ∀ (files : List UndoFile) (acc : List String × List (String × String))
      (x : String × String), x ∈ acc.2 →
      x ∈ (files.foldl (undoFileStep fs zRoot) acc).2 := by
  intro files
  induction files with
  | nil => intro acc x h; simpa using h
  | cons g rest ih =>
      intro acc x h
      simp only [List.foldl_cons]
      apply ih
      simp only [undoFileStep]
      cases ho : restoreOutcome fs zRoot g with
      | ok => exact h
      | noBackup => exact List.mem_append.mpr (Or.inl h)
      | noTarget => exact List.mem_append.mpr (Or.inl h)
      | busy => exact List.mem_append.mpr (Or.inl h)

theorem undoFileFold_failed_complete (fs : FsView) (zRoot : String) :
    ∀ (files : List UndoFile) (acc : List String × List (String × String))
      (f : UndoFile), f ∈ files → restoreOutcome fs zRoot f ≠ .ok →
      ∃ r, (f.name, r) ∈ (files.foldl (undoFileStep fs zRoot) acc).2 := by
  intro files
  induction files with
  | nil => intro acc f hf; simp at hf
  | cons g rest ih =>
      intro acc f hf ho
      simp only [List.foldl_cons]
      rcases List.mem_cons.mp hf with rfl | hf
      · refine ⟨restoreReason (restoreOutcome fs zRoot f), ?_⟩
        apply undoFileFold_failed_mono
        simp only [undoFileStep]
        cases hout : restoreOutcome fs zRoot f with
        | ok => exact absurd hout ho
        | noBackup => simp [hout]
        | noTarget => simp [hout]
        | busy => simp [hout]
      · exact ih _ f hf ho

theorem undoEntryFold_undone (fs : FsView) (zRoot : String)
    (R : String → Prop) :
    ∀ (entries : List UndoEntry)
      (acc : List String × List (String × String) × List String),
      (∀ id ∈ acc.2.2, R id) →
      (∀ e ∈ entries,
        (∀ f ∈ e.files, restoreOutcome fs zRoot f = .ok) → R e.id) →
      ∀ id ∈ (entries.foldl (undoEntryStep fs zRoot) acc).2.2, R id := by
  intro entries
  induction entries with
  | nil => intro acc hacc _ id h; exact hacc id h
  | cons e rest ih =>
      intro acc hacc hent id hid
      simp only [List.foldl_cons] at hid
      refine ih _ ?_ (fun x hx h => hent x (by simp [hx]) h) id hid
      intro id2 hid2
      simp only [undoEntryStep] at hid2
      by_cases hb : (e.files.any (fun fi =>
          ((e.files.foldl (undoFileStep fs zRoot) (acc.1, acc.2.1)).2).any
            (fun fr => fr.1 == fi.name))) = true
      · rw [if_pos hb] at hid2
        exact hacc id2 hid2
      · rw [if_neg hb] at hid2
        rcases List.mem_append.mp hid2 with h | h
        · exact hacc id2 h
        · rw [List.mem_singleton.mp h]
          apply hent e (by simp)
          intro f hf
          by_contra hno
          apply hb
          rw [List.any_eq_true]
          obtain ⟨r, hr⟩ := undoFileFold_failed_complete fs zRoot e.files
            (acc.1, acc.2.1) f hf hno
          refine ⟨f, hf, ?_⟩
          rw [List.any_eq_true]
          exact ⟨(f.name, r), hr, by simp⟩

/-- **C8**: undo-ledger invariants of `undo_selected`
(excel_handler.py:2499-2569), for a ledger with distinct batch ids:
(i) a batch entry is removed from the ledger only if every file it
references was successfully restored from its backup; (ii) a batch with
at least one failed restoration remains listed; (iii) a backup file is
deleted only when its batch entry is removed (which by (i) means full
restoration). -/
theorem c8_undo_ledger_invariants (fs : FsView) (zRoot : String)
    (history : List UndoEntry) (batch_ids : List String)
    (hnd : (history.map (fun h => h.id)).Nodup) :
    (∀ e ∈ history,
      e ∉ (undo_selected fs zRoot history batch_ids).newHistory →
      ∀ f ∈ e.files, restoreOutcome fs zRoot f = .ok) ∧
    (∀ e ∈ history,
      (∃ f ∈ e.files, restoreOutcome fs zRoot f ≠ .ok) →
      e ∈ (undo_selected fs zRoot history batch_ids).newHistory) ∧
    (∀ bp ∈ (undo_selected fs zRoot history batch_ids).deletedBackups,
      ∃ e ∈ history,
        e ∉ (undo_selected fs zRoot history batch_ids).newHistory ∧
        ∃ f ∈ e.files, f.backup = bp) := by
  have hML : ∀ id ∈ (undoFoldRes fs zRoot history batch_ids).2.2,
      ∃ e ∈ toUndoOf history batch_ids, e.id = id ∧
        ∀ f ∈ e.files, restoreOutcome fs zRoot f = .ok := by
    intro id hid
    exact undoEntryFold_undone fs zRoot
      (fun id => ∃ e ∈ toUndoOf history batch_ids, e.id = id ∧
        ∀ f ∈ e.files, restoreOutcome fs zRoot f = .ok)
      (toUndoOf history batch_ids) ([], [], [])
      (by intro x hx; simp at hx)
      (fun e he h => ⟨e, he, rfl, h⟩) id hid
  by_cases h0 : history = []
  · subst h0
    refine ⟨?_, ?_, ?_⟩
    · intro e he; simp at he
    · intro e he; simp at he
    · intro bp hbp; simp [undo_selected] at hbp
  · by_cases h1 : toUndoOf history batch_ids = []
    · have hNH : (undo_selected fs zRoot history batch_ids).newHistory =
          history := by simp [undo_selected, h0, h1]
      have hDel : (undo_selected fs zRoot history batch_ids).deletedBackups =
          [] := by simp [undo_selected, h0, h1]
      refine ⟨?_, ?_, ?_⟩
      · intro e he hne; rw [hNH] at hne; exact absurd he hne
      · intro e he _; rw [hNH]; exact he
      · intro bp hbp; rw [hDel] at hbp; simp at hbp
    · by_cases h2 : (undoFoldRes fs zRoot history batch_ids).2.2 = []
      · have hNH : (undo_selected fs zRoot history batch_ids).newHistory =
            history := by simp [undo_selected, h0, h1, h2]
        have hDel : (undo_selected fs zRoot history
            batch_ids).deletedBackups = [] := by
          simp [undo_selected, h0, h1, h2]
        refine ⟨?_, ?_, ?_⟩
        · intro e he hne; rw [hNH] at hne; exact absurd he hne
        · intro e he _; rw [hNH]; exact he
        · intro bp hbp; rw [hDel] at hbp; simp at hbp
      · have hNH : (undo_selected fs zRoot history batch_ids).newHistory =
            history.filter (fun h =>
              decide (h.id ∉ (undoFoldRes fs zRoot history batch_ids).2.2))
            := by
          simp [undo_selected, h0, h1, h2]
        have hDel : (undo_selected fs zRoot history
            batch_ids).deletedBackups =
            (history.filter (fun h =>
              decide (h.id ∈ (undoFoldRes fs zRoot history
                batch_ids).2.2))).flatMap
              (fun h => (h.files.filter (fun fi =>
                decide (fi.backup ≠ "") && fs.pathExists fi.backup)).map
                  (fun fi => fi.backup)) := by
          simp [undo_selected, h0, h1, h2]
        refine ⟨?_, ?_, ?_⟩
        · intro e he hne
          rw [hNH] at hne
          have hid : e.id ∈ (undoFoldRes fs zRoot history batch_ids).2.2 := by
            by_contra hcon
            exact hne (List.mem_filter.mpr ⟨he, by simp [hcon]⟩)
          obtain ⟨e2, he2, heq, hok⟩ := hML e.id hid
          have he2h : e2 ∈ history := (List.mem_filter.mp he2).1
          have hee : e2 = e := List.inj_on_of_nodup_map hnd he2h he heq
          subst hee
          exact hok
        · intro e he hex
          obtain ⟨f, hf, hfo⟩ := hex
          rw [hNH]
          refine List.mem_filter.mpr ⟨he, ?_⟩
          simp only [decide_eq_true_eq]
          intro hid
          obtain ⟨e2, he2, heq, hok⟩ := hML e.id hid
          have he2h : e2 ∈ history := (List.mem_filter.mp he2).1
          have hee : e2 = e := List.inj_on_of_nodup_map hnd he2h he heq
          subst hee
          exact hfo (hok f hf)
        · intro bp hbp
          rw [hDel] at hbp
          obtain ⟨hh, hhmem, hbp2⟩ := List.mem_flatMap.mp hbp
          have hh2 := List.mem_filter.mp hhmem
          obtain ⟨fi, hfi, hfib⟩ := List.mem_map.mp hbp2
          have hfi2 := List.mem_filter.mp hfi
          refine ⟨hh, hh2.1, ?_, fi, hfi2.1, hfib⟩
          rw [hNH]
          intro hmem
          have hpred := (List.mem_filter.mp hmem).2
          simp only [decide_eq_true_eq] at hpred
          exact hpred (by simpa using hh2.2)

def fs0 : FsView := { pathExists := fun _ => false, writable := fun _ => false }

def undoFile1 : UndoFile :=
  { name := "A.xlsx", backup := "bk\\20240101-120000_A.xlsx",
    z_path := "Z:\\A.xlsx" }

def undoEntry1 : UndoEntry :=
  { id := "20240101-120000_A.xlsx", files := [undoFile1] }

/-- Witness for C8: with a file system where the backup no longer exists,
the single selected batch fails its restoration and remains listed. -/
theorem c8_witness :
    undoEntry1 ∈ (undo_selected fs0 "Z:" [undoEntry1]
      ["20240101-120000_A.xlsx"]).newHistory :=
  (c8_undo_ledger_invariants fs0 "Z:" [undoEntry1]
    ["20240101-120000_A.xlsx"] (by decide)).2.1 undoEntry1 (by decide)
    ⟨undoFile1, by decide, by decide⟩

/-! ### C10: `_insert_pos_com` (excel_handler.py:1982-2013)

The ship-date cell column is an oracle `cell : row → Option date`
(`None` also stands for non-date cell values, which the loop ignores
exactly like empty cells).  Dates are calendar triples compared
lexicographically, as `datetime(v.year, v.month, v.day) >= ship_dt`
compares them. -/

structure YMD where
  y : Nat
  mo : Nat
  d : Nat
deriving DecidableEq

/-- `a <= b` on truncated datetimes. -/
def ymdLeB (a b : YMD) : Bool :=
  decide (a.y < b.y) || (a.y == b.y &&
    (decide (a.mo < b.mo) || (a.mo == b.mo && decide (a.d ≤ b.d))))

def daysInMonth (y mo : Nat) : Nat :=
  if mo = 2 then
    if (y % 4 = 0 ∧ y % 100 ≠ 0) ∨ y % 400 = 0 then 29 else 28
  else if mo = 4 ∨ mo = 6 ∨ mo = 9 ∨ mo = 11 then 30
  else 31

/-- `_parse_date` on a string (excel_handler.py:159-171): normalize, then
`strptime('%Y-%m-%d')` — exactly four year digits, one or two month and
day digits consuming the whole string, with calendar validation. -/
def parseDateYMD (s : String) : Option YMD :=
  let l := (normalizeDate s).data
  let r1 := l.takeWhile isDig
  let t1 := l.dropWhile isDig
  if r1.length ≠ 4 then none
  else
    match t1 with
    | '-' :: t2 =>
        let r2 := t2.takeWhile isDig
        let t3 := t2.dropWhile isDig
        if r2.length = 0 ∨ r2.length > 2 then none
        else
          match t3 with
          | '-' :: t4 =>
              let r3 := t4.takeWhile isDig
              let t5 := t4.dropWhile isDig
              if r3.length = 0 ∨ r3.length > 2 ∨ t5 ≠ [] then none
              else
                let y := digitsToNat r1
                let mo := digitsToNat r2
                let d := digitsToNat r3
                if 1 ≤ mo ∧ mo ≤ 12 ∧ 1 ≤ d ∧ d ≤ daysInMonth y mo then
                  some ⟨y, mo, d⟩
                else none
          | _ => none
    | _ => none

example : parseDateYMD "2025/3/1" = some ⟨2025, 3, 1⟩ := by decide
example : parseDateYMD "2025-02-30" = none := by decide
example : parseDateYMD "" = none := by decide

/-- The rows scanned: `range(start_row, min(used_rows + 1, 5000))` with
`start_row = max(4, start_after + 1)`. -/
def rowsRange (usedRows startAfter : Nat) : List Nat :=
  List.range' (max 4 (startAfter + 1))
    (min (usedRows + 1) 5000 - max 4 (startAfter + 1))

/-- The dated-cell scan of the main loop (excel_handler.py:2001-2013):
return the first row whose date is `>=` the ship date, else one past the
last dated row seen. -/
def scanIns (cell : Nat → Option YMD) (ship : YMD) :
    List Nat → Nat → Nat
  | [], last => last + 1
  | r :: rs, last =>
      match cell r with
      | none => scanIns cell ship rs last
      | some dt => if ymdLeB ship dt then r else scanIns cell ship rs r

/-- `_insert_pos_com(ws, ship_dt, col, start_after)`. -/
def insertPosCom (cell : Nat → Option YMD) (usedRows : Nat)
    (shipDt : Option YMD) (startAfter : Nat) : Nat :=
  let startRow := max 4 (startAfter + 1)
  match shipDt with
  | none =>
      ((rowsRange usedRows startAfter).foldl
        (fun last r => if (cell r).isSome then r else last)
        (startRow - 1)) + 1
  | some ship => scanIns cell ship (rowsRange usedRows startAfter)
      (startRow - 1)

/-- `_do_new_com`'s choice of ship date and insert position
(excel_handler.py:1613-1623): header ship date, or the line's delivery
field as fallback, parsed by `_parse_date`. -/
def doNewInsertPos (cell : Nat → Option YMD) (usedRows : Nat)
    (headerShip lnDelivery : String) (startAfter : Nat) : Nat :=
  insertPosCom cell usedRows (parseDateYMD (pyOrS headerShip lnDelivery))
    startAfter

def qualRowB (cell : Nat → Option YMD) (ship : YMD) (r : Nat) : Bool :=
  match cell r with
  | some dt => ymdLeB ship dt
  | none => false

theorem range1_pairwise : ∀ (n a : Nat), (List.range' a n).Pairwise (· < ·) := by
  intro n
  induction n with
  | zero => intro a; simp
  | succ m ih =>
      intro a
      show (a :: List.range' (a + 1) m).Pairwise (· < ·)
      refine List.pairwise_cons.mpr ⟨?_, ih (a + 1)⟩
      intro x hx
      have := List.mem_range'_1.mp hx
      omega

theorem rowsRange_pairwise (usedRows startAfter : Nat) :
    (rowsRange usedRows startAfter).Pairwise (· < ·) :=
  range1_pairwise _ _

theorem scanIns_first (cell : Nat → Option YMD) (ship : YMD) :
    ∀ (rows : List Nat) (last : Nat),
      (∃ r ∈ rows, qualRowB cell ship r = true) →
      ∃ pre r post, rows = pre ++ r :: post ∧ qualRowB cell ship r = true ∧
        (∀ x ∈ pre, qualRowB cell ship x = false) ∧
        scanIns cell ship rows last = r := by
  intro rows
  induction rows with
  | nil => intro last h; simp at h
  | cons a rs ih =>
      intro last h
      cases ca : cell a with
      | none =>
          have ha : qualRowB cell ship a = false := by simp [qualRowB, ca]
          have h2 : ∃ r ∈ rs, qualRowB cell ship r = true := by
            rcases h with ⟨w, hw, hq⟩
            rcases List.mem_cons.mp hw with rfl | hw
            · rw [ha] at hq; cases hq
            · exact ⟨w, hw, hq⟩
          obtain ⟨pre, r, post, hsplit, hq, hpre, hres⟩ := ih last h2
          refine ⟨a :: pre, r, post, by simp [hsplit], hq, ?_, ?_⟩
          · intro x hx
            rcases List.mem_cons.mp hx with rfl | hx
            · exact ha
            · exact hpre x hx
          · simpa [scanIns, ca] using hres
      | some dt =>
          by_cases hge : ymdLeB ship dt = true
          · refine ⟨[], a, rs, rfl, by simp [qualRowB, ca, hge], by simp, ?_⟩
            simp [scanIns, ca, hge]
          · have ha : qualRowB cell ship a = false := by
              simp only [qualRowB, ca]
              exact Bool.not_eq_true _ ▸ (by simpa using hge)
            have h2 : ∃ r ∈ rs, qualRowB cell ship r = true := by
              rcases h with ⟨w, hw, hq⟩
              rcases List.mem_cons.mp hw with rfl | hw
              · rw [ha] at hq; cases hq
              · exact ⟨w, hw, hq⟩
            obtain ⟨pre, r, post, hsplit, hq, hpre, hres⟩ := ih a h2
            refine ⟨a :: pre, r, post, by simp [hsplit], hq, ?_, ?_⟩
            · intro x hx
              rcases List.mem_cons.mp hx with rfl | hx
              · exact ha
              · exact hpre x hx
            · simpa [scanIns, ca, hge] using hres

theorem sorted_split_mem_lt {rows pre post : List Nat} {r x : Nat}
    (hs : rows.Pairwise (· < ·)) (he : rows = pre ++ r :: post)
    (hx : x ∈ rows) (hlt : x < r) : x ∈ pre := by
  subst he
  rcases List.mem_append.mp hx with h | h
  · exact h
  · rcases List.mem_cons.mp h with rfl | h
    · omega
    · have h2 := (List.pairwise_append.mp hs).2.1
      have hr := (List.pairwise_cons.mp h2).1 x h
      omega

theorem foldl_ld_keep (cell : Nat → Option YMD) :
    ∀ (rows : List Nat) (last : Nat),
      (∀ r ∈ rows, (cell r).isSome = false) →
      rows.foldl (fun last r => if (cell r).isSome then r else last) last
        = last := by
  intro rows
  induction rows with
  | nil => intro last _; rfl
  | cons a rs ih =>
      intro last h
      have ha := h a (List.mem_cons_self a rs)
      have h2 : ∀ r ∈ rs, (cell r).isSome = false :=
        fun r hr => h r (List.mem_cons_of_mem a hr)
      simp only [List.foldl_cons, ha, Bool.false_eq_true, if_false]
      exact ih last h2

theorem foldl_ld_lastDated (cell : Nat → Option YMD) :
    ∀ (rows : List Nat) (last : Nat),
      (∃ r ∈ rows, (cell r).isSome = true) →
      ∃ pre r post, rows = pre ++ r :: post ∧ (cell r).isSome = true ∧
        (∀ x ∈ post, (cell x).isSome = false) ∧
        rows.foldl (fun last r => if (cell r).isSome then r else last) last
          = r := by
  intro rows
  induction rows with
  | nil => intro last h; simp at h
  | cons a rs ih =>
      intro last h
      by_cases hrs : ∃ r ∈ rs, (cell r).isSome = true
      · cases ca : (cell a).isSome with
        | true =>
            obtain ⟨pre, r, post, hsplit, hr, hpost, hres⟩ := ih a hrs
            refine ⟨a :: pre, r, post, by simp [hsplit], hr, hpost, ?_⟩
            simpa [List.foldl_cons, ca] using hres
        | false =>
            obtain ⟨pre, r, post, hsplit, hr, hpost, hres⟩ := ih last hrs
            refine ⟨a :: pre, r, post, by simp [hsplit], hr, hpost, ?_⟩
            simpa [List.foldl_cons, ca] using hres
      · have hrsF : ∀ r ∈ rs, (cell r).isSome = false := by
          intro r hr
          by_contra hc
          refine hrs ⟨r, hr, ?_⟩
          cases hb : (cell r).isSome with
          | true => rfl
          | false => exact absurd hb hc
        have ca : (cell a).isSome = true := by
          rcases h with ⟨w, hw, hq⟩
          rcases List.mem_cons.mp hw with rfl | hw
          · exact hq
          · rw [hrsF w hw] at hq; cases hq
        refine ⟨[], a, rs, rfl, ca, hrsF, ?_⟩
        simp only [List.foldl_cons, ca, if_true]
        exact foldl_ld_keep cell rs a hrsF

/-- C10: insertion by ship date (`_insert_pos_com`, excel_handler.py:1982-2013,
called from `_do_new_com`, excel_handler.py:1613-1623, with the header ship
date or the line's delivery as fallback).  When the ship date parses and some
row in the search range (row `max 4 (start_after+1)` up to
`min(used_rows+1, 5000)`, exclusive) carries a date `>=` it, the chosen
position is exactly the first — hence smallest — such row, so the new row
lands immediately before the existing entries with the same or a later ship
date; when no ship date parses, the chosen position is one past the last
dated row of the range (or the start row when no row is dated). -/
theorem c10_insert_position_by_ship_date
    (cell : Nat → Option YMD) (usedRows startAfter : Nat)
    (headerShip lnDelivery : String) :
    (∀ ship, parseDateYMD (pyOrS headerShip lnDelivery) = some ship →
      (∃ r ∈ rowsRange usedRows startAfter, qualRowB cell ship r = true) →
      ∃ r ∈ rowsRange usedRows startAfter,
        qualRowB cell ship r = true ∧
        doNewInsertPos cell usedRows headerShip lnDelivery startAfter = r ∧
        ∀ r2 ∈ rowsRange usedRows startAfter, r2 < r →
          qualRowB cell ship r2 = false) ∧
    (parseDateYMD (pyOrS headerShip lnDelivery) = none →
      (∃ r ∈ rowsRange usedRows startAfter, (cell r).isSome = true ∧
         doNewInsertPos cell usedRows headerShip lnDelivery startAfter
           = r + 1 ∧
         ∀ r2 ∈ rowsRange usedRows startAfter, (cell r2).isSome = true →
           r2 ≤ r) ∨
      ((∀ r ∈ rowsRange usedRows startAfter, (cell r).isSome = false) ∧
       doNewInsertPos cell usedRows headerShip lnDelivery startAfter
         = max 4 (startAfter + 1))) := by
  have hs := rowsRange_pairwise usedRows startAfter
  constructor
  · intro ship hp hex
    obtain ⟨pre, r, post, hsplit, hq, hpreF, hres⟩ :=
      scanIns_first cell ship (rowsRange usedRows startAfter)
        (max 4 (startAfter + 1) - 1) hex
    refine ⟨r, by rw [hsplit]; simp, hq, ?_, ?_⟩
    · show insertPosCom cell usedRows
        (parseDateYMD (pyOrS headerShip lnDelivery)) startAfter = r
      rw [hp]
      show scanIns cell ship (rowsRange usedRows startAfter)
        (max 4 (startAfter + 1) - 1) = r
      exact hres
    · intro r2 hr2 hlt
      exact hpreF r2 (sorted_split_mem_lt hs hsplit hr2 hlt)
  · intro hp
    by_cases hd : ∃ r ∈ rowsRange usedRows startAfter, (cell r).isSome = true
    · left
      obtain ⟨pre, r, post, hsplit, hr, hpost, hres⟩ :=
        foldl_ld_lastDated cell (rowsRange usedRows startAfter)
          (max 4 (startAfter + 1) - 1) hd
      refine ⟨r, by rw [hsplit]; simp, hr, ?_, ?_⟩
      · show insertPosCom cell usedRows
          (parseDateYMD (pyOrS headerShip lnDelivery)) startAfter = r + 1
        rw [hp]
        show ((rowsRange usedRows startAfter).foldl
          (fun last r => if (cell r).isSome then r else last)
          (max 4 (startAfter + 1) - 1)) + 1 = r + 1
        rw [hres]
      · intro x hx hxd
        rw [hsplit] at hx
        rcases List.mem_append.mp hx with h | h
        · rw [hsplit] at hs
          have hcross := (List.pairwise_append.mp hs).2.2
          have := hcross x h r (List.mem_cons_self r post)
          omega
        · rcases List.mem_cons.mp h with rfl | h
          · exact Nat.le_refl x
          · rw [hpost x h] at hxd; cases hxd
    · right
      have hdF : ∀ r ∈ rowsRange usedRows startAfter,
          (cell r).isSome = false := by
        intro r hr
        by_contra hc
        refine hd ⟨r, hr, ?_⟩
        cases hb : (cell r).isSome with
        | true => rfl
        | false => exact absurd hb hc
      refine ⟨hdF, ?_⟩
      show insertPosCom cell usedRows
        (parseDateYMD (pyOrS headerShip lnDelivery)) startAfter
        = max 4 (startAfter + 1)
      rw [hp]
      show ((rowsRange usedRows startAfter).foldl
        (fun last r => if (cell r).isSome then r else last)
        (max 4 (startAfter + 1) - 1)) + 1 = max 4 (startAfter + 1)
      rw [foldl_ld_keep cell _ _ hdF]
      have h4 : 4 ≤ max 4 (startAfter + 1) := Nat.le_max_left _ _
      omega

def c10cell : Nat → Option YMD :=
  fun r => if r = 5 then some ⟨2025, 3, 1⟩
    else if r = 6 then some ⟨2025, 4, 1⟩ else none

/-- Witness for C10: on a sheet with dated rows 5 (2025-03-01) and 6
(2025-04-01) and a header ship date 2025-04-01, the chosen insert
position is row 6, the first row of the range with date `>=` the ship
date. -/
theorem c10_witness :
    ∃ r ∈ rowsRange 10 0,
      qualRowB c10cell ⟨2025, 4, 1⟩ r = true ∧
      doNewInsertPos c10cell 10 "2025-04-01" "" 0 = r ∧
      ∀ r2 ∈ rowsRange 10 0, r2 < r →
        qualRowB c10cell ⟨2025, 4, 1⟩ r2 = false :=
  (c10_insert_position_by_ship_date c10cell 10 0 "2025-04-01" "").1
    ⟨2025, 4, 1⟩ (by decide) ⟨6, by decide, by decide⟩
